import Mathlib

/-!
# Verification of the CognitiveTrail-Navigator browser-history extractor

Shallow embedding of `src/browser_history.py` (plus the `BrowserEntry`
record from `src/storage.py`) and proofs about it.

Conventions of the embedding:

* A Python `datetime.datetime` is represented by the exact number of
  microseconds it lies after `1601-01-01T00:00:00` (an integer; Python
  datetime arithmetic on `datetime`/`timedelta` is exact integer
  arithmetic on days/seconds/microseconds).  The out-of-range
  `OverflowError` of years outside 1..9999 is not modelled.
* CPython `float` is an IEEE-754 binary64 value; every arithmetic
  operation (`+`, `*`, `/`, int-to-float conversion) is correctly
  rounded, round-to-nearest ties-to-even.  We model a float by the exact
  rational it denotes, and each operation by exact rational arithmetic
  followed by `floatRound`, rounding to 53 significant bits.  The
  subnormal and overflow ranges (below 2^-1021, above 2^1024) are never
  reached by the quantities appearing in this program and are not
  modelled.
* Filesystem, environment, sqlite and socket effects are supplied by a
  `World` record of oracles; paths are lists of components.
-/

namespace CTN

/-! ## IEEE-754 binary64 model -/

/-- Round a rational to the nearest integer, ties to even
(the rounding used both inside IEEE-754 operations and by Python's
built-in `round` on a float). -/
def rne (x : ℚ) : ℤ :=
  if x - ⌊x⌋ < 1/2 then ⌊x⌋
  else if 1/2 < x - ⌊x⌋ then ⌊x⌋ + 1
  else if ⌊x⌋ % 2 = 0 then ⌊x⌋ else ⌊x⌋ + 1

/-- Fuel-based helper for the binade exponent of `q ≥ 1`. -/
def qlog2Up : ℕ → ℚ → ℕ
  | 0, _ => 0
  | f + 1, q => if q < 2 then 0 else qlog2Up f (q / 2) + 1

/-- Fuel-based helper for the binade exponent of `0 < q < 1`. -/
def qlog2Down : ℕ → ℚ → ℤ
  | 0, _ => 0
  | f + 1, q => if 1 ≤ q then 0 else qlog2Down f (2 * q) - 1

/-- Binade exponent of a positive rational: the unique `e` with
`2^e ≤ q < 2^(e+1)`.  Written with explicit fuel (structural recursion)
so that it is kernel-computable on concrete inputs. -/
def qlog2 (q : ℚ) : ℤ :=
  if 1 ≤ q then (qlog2Up q.num.natAbs q : ℤ) else qlog2Down q.den q

/-- Round a rational to the nearest IEEE-754 binary64 value
(53 significant bits), ties to even.  `qlog2 q` is the exponent of
the binade containing `q`. -/
def floatRound (q : ℚ) : ℚ :=
  if q = 0 then 0
  else if 0 < q then
    (rne (q * 2 ^ ((52 : ℤ) - qlog2 q)) : ℚ) * 2 ^ (qlog2 q - 52)
  else
    -((rne (-q * 2 ^ ((52 : ℤ) - qlog2 (-q))) : ℚ) * 2 ^ (qlog2 (-q) - 52))

/-- Truncation toward zero: Python's `int(...)` applied to a float. -/
def intTrunc (q : ℚ) : ℤ :=
  if 0 ≤ q then ⌊q⌋ else ⌈q⌉

theorem rne_err (x : ℚ) : |(rne x : ℚ) - x| ≤ 1/2 := by
  unfold rne
  have h0 : (⌊x⌋ : ℚ) ≤ x := Int.floor_le x
  have h1 : x < (⌊x⌋ : ℚ) + 1 := Int.lt_floor_add_one x
  split
  · rw [abs_le]; constructor <;> push_cast <;> linarith
  · split
    · rw [abs_le]; constructor <;> push_cast <;> linarith
    · split
      · rw [abs_le]; constructor <;> push_cast <;> linarith
      · rw [abs_le]; constructor <;> push_cast <;> linarith

theorem intTrunc_intCast (m : ℤ) : intTrunc (m : ℚ) = m := by
  unfold intTrunc
  split <;> simp

theorem floatRound_zero : floatRound 0 = 0 := by simp [floatRound]

theorem qlog2Up_spec : ∀ (f : ℕ) (q : ℚ), 1 ≤ q → q < 2 ^ f →
    (2 : ℚ) ^ ((qlog2Up f q : ℕ) : ℤ) ≤ q ∧ q < 2 ^ (((qlog2Up f q : ℕ) : ℤ) + 1) := by
  intro f
  induction f with
  | zero =>
    intro q h1 h2
    norm_num at h2
    linarith
  | succ f ih =>
    intro q h1 h2
    rw [qlog2Up]
    split
    · constructor
      · norm_num
        linarith
      · norm_num
        linarith
    · have h2q : (2 : ℚ) ≤ q := by linarith [not_lt.mp (by assumption : ¬ q < 2)]
      have hrec := ih (q / 2) (by linarith) (by
        rw [div_lt_iff₀ (by norm_num : (0:ℚ) < 2)]
        calc q < 2 ^ (f + 1) := h2
          _ = 2 ^ f * 2 := by ring)
      obtain ⟨hl, hh⟩ := hrec
      constructor
      · push_cast
        rw [show ((qlog2Up f (q / 2) : ℤ) + 1) = ((qlog2Up f (q / 2) : ℕ) : ℤ) + 1 by push_cast; ring,
          zpow_add₀ (by norm_num : (2:ℚ) ≠ 0)]
        have := mul_le_mul_of_nonneg_right hl (by norm_num : (0:ℚ) ≤ 2)
        calc (2:ℚ) ^ ((qlog2Up f (q / 2) : ℕ) : ℤ) * 2 ^ (1:ℤ)
            = 2 ^ ((qlog2Up f (q / 2) : ℕ) : ℤ) * 2 := by norm_num
          _ ≤ q / 2 * 2 := this
          _ = q := by ring
      · push_cast
        rw [show ((qlog2Up f (q / 2) : ℤ) + 1 + 1) = (((qlog2Up f (q / 2) : ℕ) : ℤ) + 1) + 1 by push_cast; ring,
          zpow_add₀ (by norm_num : (2:ℚ) ≠ 0)]
        have := mul_lt_mul_of_pos_right hh (by norm_num : (0:ℚ) < 2)
        calc q = q / 2 * 2 := by ring
          _ < 2 ^ (((qlog2Up f (q / 2) : ℕ) : ℤ) + 1) * 2 := this
          _ = 2 ^ (((qlog2Up f (q / 2) : ℕ) : ℤ) + 1) * 2 ^ (1:ℤ) := by norm_num

theorem qlog2Down_spec : ∀ (f : ℕ) (q : ℚ), 0 < q → q < 2 → (1 : ℚ) ≤ 2 ^ f * q →
    (2 : ℚ) ^ (qlog2Down f q) ≤ q ∧ q < 2 ^ (qlog2Down f q + 1) := by
  intro f
  induction f with
  | zero =>
    intro q h0 h2 h1
    rw [qlog2Down]
    norm_num at h1 ⊢
    exact ⟨h1, h2⟩
  | succ f ih =>
    intro q h0 h2 h1
    rw [qlog2Down]
    split
    · constructor
      · norm_num
        linarith [(by assumption : (1:ℚ) ≤ q)]
      · norm_num
        linarith
    · have hq1 : q < 1 := lt_of_not_le (by assumption)
      have hrec := ih (2 * q) (by linarith) (by linarith) (by
        calc (1:ℚ) ≤ 2 ^ (f + 1) * q := h1
          _ = 2 ^ f * (2 * q) := by ring)
      obtain ⟨hl, hh⟩ := hrec
      constructor
      · have hstep : (2:ℚ) ^ (qlog2Down f (2 * q) - 1) * 2 = 2 ^ (qlog2Down f (2 * q)) := by
          calc (2:ℚ) ^ (qlog2Down f (2 * q) - 1) * 2
              = 2 ^ (qlog2Down f (2 * q) - 1) * 2 ^ (1:ℤ) := by norm_num
            _ = 2 ^ (qlog2Down f (2 * q)) := by
                rw [← zpow_add₀ (by norm_num : (2:ℚ) ≠ 0)]
                congr 1
                ring
        have h2q : (2:ℚ) ^ (qlog2Down f (2 * q)) ≤ 2 * q := hl
        nlinarith [hstep]
      · have hstep : (2:ℚ) ^ (qlog2Down f (2 * q) - 1 + 1) = 2 ^ (qlog2Down f (2 * q)) := by
          ring_nf
        rw [hstep]
        have h2q : 2 * q < 2 ^ (qlog2Down f (2 * q) + 1) := hh
        have hsplit : (2:ℚ) ^ (qlog2Down f (2 * q) + 1) = 2 ^ (qlog2Down f (2 * q)) * 2 := by
          rw [zpow_add₀ (by norm_num : (2:ℚ) ≠ 0)]
          norm_num
        nlinarith [hsplit]

/-- `qlog2` characterization: `2 ^ qlog2 q ≤ q < 2 ^ (qlog2 q + 1)`. -/
theorem qlog2_spec (q : ℚ) (hq : 0 < q) :
    (2 : ℚ) ^ (qlog2 q) ≤ q ∧ q < 2 ^ (qlog2 q + 1) := by
  rw [qlog2]
  split
  · have h1 : (1:ℚ) ≤ q := by assumption
    have hnum : (0:ℤ) < q.num := Rat.num_pos.mpr hq
    have hqle : q ≤ (q.num : ℚ) := by
      have hden1 : (1 : ℚ) ≤ (q.den : ℚ) := by exact_mod_cast q.pos
      have hdpos : (0:ℚ) < (q.den : ℚ) := by linarith
      have hqd : (q.num : ℚ) = q * (q.den : ℚ) :=
        (div_eq_iff (ne_of_gt hdpos)).mp (Rat.num_div_den q)
      rw [hqd]
      nlinarith [h1]
    have hcast : (q.num : ℚ) = ((q.num.natAbs : ℕ) : ℚ) := by
      rw [Int.cast_natAbs]
      rw [abs_of_pos]
      exact_mod_cast hnum
    have hfuel : q < 2 ^ q.num.natAbs := by
      have hlt : (q.num.natAbs : ℚ) < 2 ^ q.num.natAbs := by
        have := Nat.lt_two_pow q.num.natAbs
        exact_mod_cast this
      calc q ≤ (q.num : ℚ) := hqle
        _ = (q.num.natAbs : ℚ) := hcast
        _ < 2 ^ q.num.natAbs := hlt
    exact qlog2Up_spec q.num.natAbs q h1 hfuel
  · have h1 : q < 1 := lt_of_not_le (by assumption)
    have hnum : (0:ℤ) < q.num := Rat.num_pos.mpr hq
    have hfuel : (1 : ℚ) ≤ 2 ^ q.den * q := by
      have hdpos : (0:ℚ) < (q.den : ℚ) := by exact_mod_cast q.pos
      have hqge : (1 : ℚ) / (q.den : ℚ) ≤ q := by
        have hnum1 : (1 : ℚ) ≤ (q.num : ℚ) := by exact_mod_cast hnum
        have hqd : (q.num : ℚ) = q * (q.den : ℚ) :=
          (div_eq_iff (ne_of_gt hdpos)).mp (Rat.num_div_den q)
        rw [div_le_iff₀ hdpos, ← hqd]
        exact hnum1
      have hden : (q.den : ℚ) ≤ 2 ^ q.den := by
        have := Nat.lt_two_pow q.den
        have h2 : (q.den : ℚ) < ((2 ^ q.den : ℕ) : ℚ) := by exact_mod_cast this
        have h3 : ((2 ^ q.den : ℕ) : ℚ) = 2 ^ q.den := by push_cast; ring
        linarith [h3 ▸ h2]
      calc (1 : ℚ) = (q.den : ℚ) * (1 / (q.den : ℚ)) := by field_simp
        _ ≤ 2 ^ q.den * (1 / (q.den : ℚ)) := by
            exact mul_le_mul_of_nonneg_right hden (by positivity)
        _ ≤ 2 ^ q.den * q := by
            exact mul_le_mul_of_nonneg_left hqge (by positivity)
    exact qlog2Down_spec q.den q hq (by linarith) hfuel

/-- The binade exponent reflects strict bounds by powers of two. -/
theorem qlog2_lt (q : ℚ) (n : ℤ) (hq : 0 < q) (h : q < (2 : ℚ) ^ n) :
    qlog2 q < n :=
  (zpow_lt_zpow_iff_right₀ one_lt_two).mp (lt_of_le_of_lt (qlog2_spec q hq).1 h)

/-- Half-ulp error bound for rounding a positive rational to binary64. -/
theorem floatRound_err_pos (q : ℚ) (hq : 0 < q) :
    |floatRound q - q| ≤ 2 ^ (qlog2 q - 53) := by
  have hne : q ≠ 0 := ne_of_gt hq
  unfold floatRound
  rw [if_neg hne, if_pos hq]
  set e : ℤ := qlog2 q with he
  set m : ℤ := rne (q * 2 ^ ((52:ℤ) - e)) with hm
  have hpow : (0 : ℚ) < 2 ^ (e - 52) := by positivity
  have key : |(m : ℚ) - q * 2 ^ ((52:ℤ) - e)| ≤ 1/2 := rne_err _
  have hone : (2:ℚ) ^ ((52:ℤ) - e) * 2 ^ (e - 52) = 1 := by
    rw [← zpow_add₀ (by norm_num : (2:ℚ) ≠ 0)]
    norm_num
  have hmul : (m : ℚ) * 2 ^ (e - 52) - q
      = ((m : ℚ) - q * 2 ^ ((52:ℤ) - e)) * 2 ^ (e - 52) := by
    rw [sub_mul, mul_assoc, hone, mul_one]
  rw [hmul, abs_mul, abs_of_pos hpow]
  calc |(m : ℚ) - q * 2 ^ ((52:ℤ) - e)| * 2 ^ (e - 52)
      ≤ (1/2) * 2 ^ (e - 52) := mul_le_mul_of_nonneg_right key (le_of_lt hpow)
    _ = 2 ^ (e - 53) := by
        rw [show e - 53 = (-1) + (e - 52) by ring,
          zpow_add₀ (by norm_num : (2:ℚ) ≠ 0)]
        norm_num

theorem floatRound_eq_pos (q : ℚ) (hq : 0 < q) :
    floatRound q
      = (rne (q * 2 ^ ((52:ℤ) - qlog2 q)) : ℚ) * 2 ^ (qlog2 q - 52) := by
  unfold floatRound
  rw [if_neg (ne_of_gt hq), if_pos hq]

/-! ## Timestamp conversions (`browser_history.py`, lines 255–273)

A `datetime` is its exact microsecond offset from 1601-01-01 (see the
header comment).  `epoch_start + timedelta(microseconds=value)` is exact
integer arithmetic, so `_chromium_ts_to_dt` is the identity in this
representation.  `timedelta.total_seconds()` is the single correctly
rounded float division `((days*86400 + seconds)*10**6 + microseconds) /
10**6` of the exact microsecond count; multiplying a float by the int
`1_000_000` converts the int exactly and rounds the product; `int(...)`
truncates toward zero. -/

/-- Microseconds from 1601-01-01 to 1970-01-01 (both proleptic Gregorian). -/
def epoch1970 : ℤ := 11644473600 * 10 ^ 6

/-- `_chromium_ts_to_dt`: `datetime(1601,1,1) + timedelta(microseconds=value)`. -/
def _chromium_ts_to_dt (value : ℤ) : ℤ := value

/-- `_chromium_dt_to_ts`: `int((value - datetime(1601,1,1)).total_seconds() * 1_000_000)`. -/
def _chromium_dt_to_ts (value : ℤ) : ℤ :=
  intTrunc (floatRound (floatRound ((value : ℚ) / 10 ^ 6) * 10 ^ 6))

/-- Microsecond offset from 1970-01-01 of `datetime.utcfromtimestamp(v / 1_000_000)`.
`v / 1_000_000` is a correctly rounded int/int true division; CPython's
`_fromtimestamp` splits the float with `modf`, computes
`us = round(frac * 1e6)` (float multiply, then banker's rounding) and
carries `us` into the seconds when it falls outside `[0, 10^6)`; the
carry leaves `t * 10^6 + us` unchanged, which is the value below. -/
def utcfromtimestamp_us (v : ℤ) : ℤ :=
  intTrunc (floatRound ((v : ℚ) / 10 ^ 6)) * 10 ^ 6
    + rne (floatRound ((floatRound ((v : ℚ) / 10 ^ 6)
        - intTrunc (floatRound ((v : ℚ) / 10 ^ 6))) * 10 ^ 6))

/-- `_firefox_ts_to_dt`: `datetime.utcfromtimestamp(value / 1_000_000)`,
as a microsecond offset from 1601-01-01. -/
def _firefox_ts_to_dt (value : ℤ) : ℤ :=
  epoch1970 + utcfromtimestamp_us value

/-- `_firefox_dt_to_ts`: `int(value.timestamp() * 1_000_000)` for a naive
datetime.  `datetime.timestamp` on a naive value goes through `_mktime`,
which interprets the wall-clock time in the OS local timezone; we model
the local timezone as a fixed offset `tz` of seconds east of UTC (UTC
itself is `tz = 0`).  `_mktime` returns the integer POSIX second
`(value - datetime(1970,1,1)) // timedelta(seconds=1) - tz` and
`timestamp()` adds `value.microsecond / 1e6` in float arithmetic. -/
def _firefox_dt_to_ts (tz : ℤ) (value : ℤ) : ℤ :=
  intTrunc (floatRound (floatRound
    ((((value - epoch1970).fdiv (10 ^ 6) - tz : ℤ) : ℚ)
      + floatRound (((value - epoch1970).emod (10 ^ 6) : ℚ) / 10 ^ 6)) * 10 ^ 6))

/-! ## URL query parsing (`urllib.parse`, used by `_extract_query`)

`urlparse(url).query` is the text between the first `?` (taken after the
fragment has been split off at the first `#`) and that fragment; the
scheme/netloc preprocessing of `urlsplit` cannot move this boundary
because a scheme contains no `?` and the netloc scan also stops at `?`.
`parse_qs` splits on `&`, drops empty fields, fields without `=` and
fields with an empty value (`keep_blank_values=False`), and decodes
names and values with `unquote_plus` (`+` to space, then `%XX`
percent-decoding, UTF-8 with `errors='replace'`).  CPython feeds each
maximal ASCII chunk's escape bytes and literal ASCII bytes to one
`bytes.decode` call; since an ASCII byte decodes to itself and can never
extend a multi-byte sequence, decoding each maximal run of `%XX` escapes
separately (as done here) yields the same string. -/

/-- U+FFFD, the Unicode replacement character. -/
def fffd : Char := Char.ofNat 0xFFFD

/-- UTF-8 continuation byte. -/
def contByte (b : ℕ) : Bool := decide (0x80 ≤ b) && decide (b ≤ 0xBF)

/-- Second-byte constraint of a three-byte sequence headed by `b`
(rules out overlong forms and surrogates, as CPython's decoder does). -/
def cont3 (b b2 : ℕ) : Bool :=
  if b = 0xE0 then decide (0xA0 ≤ b2) && decide (b2 ≤ 0xBF)
  else if b = 0xED then decide (0x80 ≤ b2) && decide (b2 ≤ 0x9F)
  else contByte b2

/-- Second-byte constraint of a four-byte sequence headed by `b`. -/
def cont4 (b b2 : ℕ) : Bool :=
  if b = 0xF0 then decide (0x90 ≤ b2) && decide (b2 ≤ 0xBF)
  else if b = 0xF4 then decide (0x80 ≤ b2) && decide (b2 ≤ 0x8F)
  else contByte b2

/-- UTF-8 decoding with `errors='replace'`: one U+FFFD per maximal
subpart of an ill-formed subsequence (CPython's behaviour).  The fuel
argument (any bound on the list length) keeps the recursion structural,
so concrete inputs evaluate in the kernel; a single step always consumes
at least one byte, so fuel `= length` never runs out. -/
def utf8ReplaceF : ℕ → List ℕ → List Char
  | 0, _ => []
  | _ + 1, [] => []
  | f + 1, b :: rest =>
    if b < 0x80 then Char.ofNat b :: utf8ReplaceF f rest
    else if b < 0xC2 then fffd :: utf8ReplaceF f rest
    else if b ≤ 0xDF then
      match rest with
      | b2 :: rest2 =>
        if contByte b2 then
          Char.ofNat ((b - 0xC0) * 0x40 + (b2 - 0x80)) :: utf8ReplaceF f rest2
        else fffd :: utf8ReplaceF f (b2 :: rest2)
      | [] => [fffd]
    else if b ≤ 0xEF then
      match rest with
      | b2 :: rest2 =>
        if cont3 b b2 then
          match rest2 with
          | b3 :: rest3 =>
            if contByte b3 then
              Char.ofNat ((b - 0xE0) * 0x1000 + (b2 - 0x80) * 0x40 + (b3 - 0x80))
                :: utf8ReplaceF f rest3
            else fffd :: utf8ReplaceF f (b3 :: rest3)
          | [] => [fffd]
        else fffd :: utf8ReplaceF f (b2 :: rest2)
      | [] => [fffd]
    else if b ≤ 0xF4 then
      match rest with
      | b2 :: rest2 =>
        if cont4 b b2 then
          match rest2 with
          | b3 :: rest3 =>
            if contByte b3 then
              match rest3 with
              | b4 :: rest4 =>
                if contByte b4 then
                  Char.ofNat ((b - 0xF0) * 0x40000 + (b2 - 0x80) * 0x1000
                      + (b3 - 0x80) * 0x40 + (b4 - 0x80)) :: utf8ReplaceF f rest4
                else fffd :: utf8ReplaceF f (b4 :: rest4)
              | [] => [fffd]
            else fffd :: utf8ReplaceF f (b3 :: rest3)
          | [] => [fffd]
        else fffd :: utf8ReplaceF f (b2 :: rest2)
      | [] => [fffd]
    else fffd :: utf8ReplaceF f rest

def utf8Replace (bs : List ℕ) : List Char := utf8ReplaceF bs.length bs

/-- Hexadecimal digit (both cases), as accepted by `_hextobyte`. -/
def isHexDigit (c : Char) : Bool :=
  c.isDigit || (decide ('a' ≤ c) && decide (c ≤ 'f'))
    || (decide ('A' ≤ c) && decide (c ≤ 'F'))

def hexVal (c : Char) : ℕ :=
  if c.isDigit then c.toNat - '0'.toNat
  else if decide ('a' ≤ c) && decide (c ≤ 'f') then c.toNat - 'a'.toNat + 10
  else c.toNat - 'A'.toNat + 10

/-- Tokenize a percent-encoded string: each valid `%XX` escape becomes a
byte (`Sum.inl`), everything else stays a literal character
(`Sum.inr`); an invalid escape leaves a literal `%`. -/
def pctTokens : List Char → List (Sum ℕ Char)
  | [] => []
  | '%' :: h1 :: h2 :: rest =>
    if isHexDigit h1 && isHexDigit h2 then
      Sum.inl (hexVal h1 * 16 + hexVal h2) :: pctTokens rest
    else Sum.inr '%' :: pctTokens (h1 :: h2 :: rest)
  | c :: rest => Sum.inr c :: pctTokens rest

/-- Decode a token stream: maximal runs of escape bytes go through the
UTF-8 replacement decoder, literal characters pass through.  `acc` holds
the current byte run in reverse. -/
def decodeTokensAcc (acc : List ℕ) : List (Sum ℕ Char) → List Char
  | [] => utf8Replace acc.reverse
  | Sum.inl b :: rest => decodeTokensAcc (b :: acc) rest
  | Sum.inr c :: rest => utf8Replace acc.reverse ++ c :: decodeTokensAcc [] rest

/-- `urllib.parse.unquote` with the default `utf-8`/`replace` arguments. -/
def unquote (s : String) : String :=
  String.mk (decodeTokensAcc [] (pctTokens s.data))

/-- `urllib.parse.unquote_plus`: `+` to space, then `unquote`. -/
def unquote_plus (s : String) : String :=
  unquote (s.replace "+" " ")

/-- Python `str.split(sep, 1)` written with `splitOn`. -/
def pySplit1Tail (s sep : String) : Option String :=
  match s.splitOn sep with
  | [] => none
  | [_] => none
  | _ :: rest => some (String.intercalate sep rest)

/-- `urllib.parse.parse_qsl(qs)` with default arguments (`separator='&'`,
`keep_blank_values=False`): the name/value pairs in order of appearance. -/
def parse_qsl (qs : String) : List (String × String) :=
  (qs.splitOn "&").filterMap fun field =>
    if field = "" then none
    else match pySplit1Tail field "=" with
      | none => none
      | some v =>
        if v = "" then none
        else some (unquote_plus ((field.splitOn "=").headD ""), unquote_plus v)

/-- `urlparse(url).query`: after the first `?`, fragment removed first. -/
def urlQuery (url : String) : String :=
  let beforeFrag := ((url.splitOn "#").headD "")
  match pySplit1Tail beforeFrag "?" with
  | none => ""
  | some q => q

/-- First value listed under key `k` (`parse_qs(...)[k][0]`), if `k` is a
key of the parsed query (`k in qs`). -/
def qsFirst (ps : List (String × String)) (k : String) : Option String :=
  match ps.filter (fun pr => pr.1 == k) with
  | [] => none
  | pr :: _ => some pr.2

/-- `_extract_query` (`browser_history.py`, lines 276–282): parse the
query string and return the first value of the first present key among
`q`, `query`, `text`. -/
def _extract_query (url : String) : Option String :=
  let pairs := parse_qsl (urlQuery url)
  ["q", "query", "text"].findSome? fun k => qsFirst pairs k

/-- Second-stage lemma: truncating the float rounding of an `x` that sits
within distance `min 1 (u * 2^-53)` of an integer `1 ≤ u < 2^54` lands
within 1 of `u`. -/
theorem intTrunc_floatRound_close (u : ℤ) (x : ℚ) (hu : 1 ≤ u)
    (hδlt1 : |x - (u : ℚ)| < 1) (hδrel : |x - (u : ℚ)| ≤ (u : ℚ) * 2 ^ (-53 : ℤ))
    (hxlt : x < (2 : ℚ) ^ (54 : ℤ)) :
    |intTrunc (floatRound x) - u| ≤ 1 := by
  have hu1 : (1 : ℚ) ≤ (u : ℚ) := by exact_mod_cast hu
  have hδ1 := abs_lt.mp hδlt1
  have hxpos : 0 < x := by linarith
  set e2 : ℤ := qlog2 x with he2
  set r : ℚ := floatRound x with hrdef
  have hr : |r - x| ≤ 2 ^ (e2 - 53) := floatRound_err_pos x hxpos
  have he2lt : e2 < 54 := qlog2_lt x 54 hxpos hxlt
  rcases lt_or_le e2 52 with hc1 | hc2
  -- case e2 ≤ 51: the grid is finer than 1/2, and u ≤ 2^52 so the
  -- incoming drift is at most 1/2.
  · have hxup : x < (2 : ℚ) ^ (52 : ℤ) := by
      have hstep := (qlog2_spec x hxpos).2
      rw [← he2] at hstep
      have h52 : (2 : ℚ) ^ (e2 + 1) ≤ (2 : ℚ) ^ (52 : ℤ) :=
        zpow_le_zpow_right₀ one_le_two (by omega)
      calc x < (2 : ℚ) ^ (e2 + 1) := hstep
        _ ≤ (2 : ℚ) ^ (52 : ℤ) := h52
    have hule : (u : ℚ) ≤ (2 : ℚ) ^ (52 : ℤ) := by
      have hult : (u : ℚ) < (2 : ℚ) ^ (52 : ℤ) + 1 := by linarith
      have h1 : u < 2 ^ 52 + 1 := by exact_mod_cast hult
      have h2 : u ≤ 2 ^ 52 := by omega
      calc (u : ℚ) ≤ ((2 ^ 52 : ℤ) : ℚ) := by exact_mod_cast h2
        _ = (2 : ℚ) ^ (52 : ℤ) := by norm_num
    have hδhalf : |x - (u : ℚ)| ≤ 1 / 2 := by
      calc |x - (u : ℚ)| ≤ (u : ℚ) * 2 ^ (-53 : ℤ) := hδrel
        _ ≤ (2 : ℚ) ^ (52 : ℤ) * 2 ^ (-53 : ℤ) :=
            mul_le_mul_of_nonneg_right hule (by positivity)
        _ = 1 / 2 := by norm_num
    have hrq : |r - x| ≤ 1 / 4 := by
      calc |r - x| ≤ 2 ^ (e2 - 53) := hr
        _ ≤ (2 : ℚ) ^ (-2 : ℤ) := zpow_le_zpow_right₀ one_le_two (by omega)
        _ = 1 / 4 := by norm_num
    have htri : |r - (u : ℚ)| ≤ 3 / 4 := by
      calc |r - (u : ℚ)| ≤ |r - x| + |x - (u : ℚ)| := abs_sub_le r x (u : ℚ)
        _ ≤ 1 / 4 + 1 / 2 := by linarith
        _ = 3 / 4 := by norm_num
    have habs := abs_le.mp htri
    have hrpos : (0 : ℚ) ≤ r := by linarith
    have htr : intTrunc r = ⌊r⌋ := by rw [intTrunc, if_pos hrpos]
    rw [htr]
    have hup : ⌊r⌋ < u + 1 := by
      rw [Int.floor_lt]
      push_cast
      linarith
    have hdn : u - 1 ≤ ⌊r⌋ := by
      rw [Int.le_floor]
      push_cast
      linarith
    rw [abs_le]
    omega
  -- case 52 ≤ e2 ≤ 53: r is an integer within distance < 2 of u.
  · rcases (by omega : e2 = 52 ∨ e2 = 53) with h52 | h53
    · have hre : r = (rne x : ℚ) := by
        rw [hrdef, floatRound_eq_pos x hxpos, ← he2, h52]
        norm_num
      have hrr : |(rne x : ℚ) - x| ≤ 1 / 2 := rne_err x
      have hlt2 : |(rne x : ℚ) - (u : ℚ)| < 2 := by
        have htri := abs_sub_le (rne x : ℚ) x (u : ℚ)
        linarith
      have hint : |rne x - u| < 2 := by
        have hcast : |((rne x - u : ℤ) : ℚ)| < 2 := by push_cast; exact hlt2
        exact_mod_cast hcast
      rw [hre, intTrunc_intCast]
      omega
    · have hre : r = ((2 * rne (x * 2 ^ (-1 : ℤ)) : ℤ) : ℚ) := by
        rw [hrdef, floatRound_eq_pos x hxpos, ← he2, h53]
        push_cast
        norm_num
        ring
      have hrr : |r - x| ≤ 1 := by
        have hone : (2 : ℚ) ^ (e2 - 53) = 1 := by rw [h53]; norm_num
        rw [hone] at hr
        exact hr
      have hlt2 : |r - (u : ℚ)| < 2 := by
        have htri := abs_sub_le r x (u : ℚ)
        linarith
      have hint : |2 * rne (x * 2 ^ (-1 : ℤ)) - u| < 2 := by
        have hcast : |((2 * rne (x * 2 ^ (-1 : ℤ)) - u : ℤ) : ℚ)| < 2 := by
          rw [hre] at hlt2
          push_cast
          push_cast at hlt2
          exact hlt2
        exact_mod_cast hcast
      rw [hre, intTrunc_intCast]
      omega

/-- The Chromium round-trip error is at most 1 µs for datetimes between
the 1601 epoch and tick `10^6 * 2^34` (about the year 2145): the two
float roundings inside `total_seconds() * 1_000_000` keep the
intermediate value within less than 1 µs of the exact one, and the final
truncation lands on an integer at distance at most 1. -/
theorem chromium_dt_to_ts_close (u : ℤ) (h0 : 0 ≤ u) (h1 : u < 10 ^ 6 * 2 ^ 34) :
    |_chromium_dt_to_ts u - u| ≤ 1 := by
  rcases eq_or_lt_of_le h0 with h | hpos
  · have hz : u = 0 := h.symm
    subst hz
    have hval : _chromium_dt_to_ts 0 = 0 := by
      simp [_chromium_dt_to_ts, floatRound_zero, intTrunc]
    rw [hval]
    norm_num
  -- now 1 ≤ u
  have hu1 : (1 : ℚ) ≤ (u : ℚ) := by exact_mod_cast hpos
  have hq1pos : 0 < (u : ℚ) / 10 ^ 6 := by positivity
  have hs : |floatRound ((u : ℚ) / 10 ^ 6) - (u : ℚ) / 10 ^ 6|
      ≤ 2 ^ (qlog2 ((u : ℚ) / 10 ^ 6) - 53) := floatRound_err_pos _ hq1pos
  set e1 : ℤ := qlog2 ((u : ℚ) / 10 ^ 6) with he1
  have he1lt : e1 < 34 := by
    have hq1lt : (u : ℚ) / 10 ^ 6 < (2 : ℚ) ^ (34 : ℤ) := by
      rw [div_lt_iff₀ (by norm_num : (0:ℚ) < 10 ^ 6)]
      calc (u : ℚ) < 10 ^ 6 * 2 ^ 34 := by exact_mod_cast h1
        _ = (2:ℚ) ^ (34:ℤ) * 10 ^ 6 := by norm_num
    rw [he1]
    exact qlog2_lt _ 34 hq1pos hq1lt
  have hlow : (2 : ℚ) ^ e1 ≤ (u : ℚ) / 10 ^ 6 := by
    rw [he1]
    exact (qlog2_spec _ hq1pos).1
  have hq1mul : (u : ℚ) / 10 ^ 6 * 10 ^ 6 = (u : ℚ) := by
    rw [div_mul_cancel₀]
    norm_num
  have hxu : |floatRound ((u : ℚ) / 10 ^ 6) * 10 ^ 6 - (u : ℚ)|
      ≤ 2 ^ (e1 - 53) * 10 ^ 6 := by
    have hexp : floatRound ((u : ℚ) / 10 ^ 6) * 10 ^ 6 - (u : ℚ)
        = (floatRound ((u : ℚ) / 10 ^ 6) - (u : ℚ) / 10 ^ 6) * 10 ^ 6 := by
      rw [sub_mul, hq1mul]
    rw [hexp, abs_mul, abs_of_pos (by norm_num : (0:ℚ) < (10:ℚ) ^ 6)]
    exact mul_le_mul_of_nonneg_right hs (by norm_num)
  have hδlt1 : |floatRound ((u : ℚ) / 10 ^ 6) * 10 ^ 6 - (u : ℚ)| < 1 := by
    have h20 : (2 : ℚ) ^ (e1 - 53) ≤ 2 ^ (-20 : ℤ) :=
      zpow_le_zpow_right₀ one_le_two (by omega)
    calc |floatRound ((u : ℚ) / 10 ^ 6) * 10 ^ 6 - (u : ℚ)|
        ≤ 2 ^ (e1 - 53) * 10 ^ 6 := hxu
      _ ≤ 2 ^ (-20 : ℤ) * 10 ^ 6 := mul_le_mul_of_nonneg_right h20 (by norm_num)
      _ < 1 := by norm_num
  have hδrel : |floatRound ((u : ℚ) / 10 ^ 6) * 10 ^ 6 - (u : ℚ)|
      ≤ (u : ℚ) * 2 ^ (-53 : ℤ) := by
    have hlow6 : (2 : ℚ) ^ e1 * 10 ^ 6 ≤ (u : ℚ) := by
      have hmul := mul_le_mul_of_nonneg_right hlow (by norm_num : (0:ℚ) ≤ 10 ^ 6)
      calc (2 : ℚ) ^ e1 * 10 ^ 6 ≤ (u : ℚ) / 10 ^ 6 * 10 ^ 6 := hmul
        _ = (u : ℚ) := hq1mul
    have hsplit : (2 : ℚ) ^ (e1 - 53) = 2 ^ e1 * 2 ^ (-53 : ℤ) := by
      rw [← zpow_add₀ (by norm_num : (2:ℚ) ≠ 0)]
      ring_nf
    calc |floatRound ((u : ℚ) / 10 ^ 6) * 10 ^ 6 - (u : ℚ)|
        ≤ 2 ^ (e1 - 53) * 10 ^ 6 := hxu
      _ = (2 ^ e1 * 10 ^ 6) * 2 ^ (-53 : ℤ) := by rw [hsplit]; ring
      _ ≤ (u : ℚ) * 2 ^ (-53 : ℤ) :=
          mul_le_mul_of_nonneg_right hlow6 (by positivity)
  have hxlt : floatRound ((u : ℚ) / 10 ^ 6) * 10 ^ 6 < (2 : ℚ) ^ (54 : ℤ) := by
    have habs := abs_lt.mp hδlt1
    have hub : (u : ℚ) + 1 ≤ 10 ^ 6 * 2 ^ 34 := by exact_mod_cast h1
    calc floatRound ((u : ℚ) / 10 ^ 6) * 10 ^ 6 < (u : ℚ) + 1 := by linarith
      _ ≤ 10 ^ 6 * 2 ^ 34 := hub
      _ < (2 : ℚ) ^ (54 : ℤ) := by norm_num
  have hmain := intTrunc_floatRound_close u
    (floatRound ((u : ℚ) / 10 ^ 6) * 10 ^ 6) hpos hδlt1 hδrel hxlt
  exact hmain

/-! ## Stable descending sort

`list.sort(key=..., reverse=True)` is Python's stable sort by key,
descending.  A stable sort by a fixed key is extensionally unique, so we
embed it as stable insertion sort: an element is inserted after every
earlier element with a key `≥` its own. -/

/-- Insert `a` into `l` (already sorted descending by `key`), after all
elements with a strictly larger key and before equal ones seen later —
but after equal ones already in `l`?  No: `a` is placed before the first
element whose key is not larger, which keeps earlier-inserted equal
elements *behind* only if they come later in the original list; see
`sortDesc`, which inserts from the right. -/
def insertDesc (key : α → ℤ) (a : α) : List α → List α
  | [] => [a]
  | b :: t => if key a < key b then b :: insertDesc key a t else a :: b :: t

/-- Stable sort, descending by `key` (Python `sort(key=..., reverse=True)`). -/
def sortDesc (key : α → ℤ) : List α → List α
  | [] => []
  | a :: t => insertDesc key a (sortDesc key t)

theorem insertDesc_perm (key : α → ℤ) (a : α) (l : List α) :
    (insertDesc key a l).Perm (a :: l) := by
  induction l with
  | nil => simp [insertDesc]
  | cons b t ih =>
    rw [insertDesc]
    split
    · exact (List.Perm.cons b ih).trans (List.Perm.swap a b t)
    · exact List.Perm.refl _

theorem sortDesc_perm (key : α → ℤ) (l : List α) :
    (sortDesc key l).Perm l := by
  induction l with
  | nil => simp [sortDesc]
  | cons a t ih =>
    rw [sortDesc]
    exact (insertDesc_perm key a _).trans (List.Perm.cons a ih)

theorem mem_insertDesc (key : α → ℤ) (a x : α) (l : List α) :
    x ∈ insertDesc key a l ↔ x = a ∨ x ∈ l := by
  constructor
  · intro hx
    have := (insertDesc_perm key a l).mem_iff.mp hx
    simpa using this
  · intro hx
    apply (insertDesc_perm key a l).mem_iff.mpr
    simpa using hx

theorem insertDesc_pairwise (key : α → ℤ) (a : α) (l : List α)
    (hl : l.Pairwise (fun x y => key y ≤ key x)) :
    (insertDesc key a l).Pairwise (fun x y => key y ≤ key x) := by
  induction l with
  | nil => simp [insertDesc]
  | cons b t ih =>
    rw [insertDesc]
    rcases List.pairwise_cons.mp hl with ⟨hb, ht⟩
    split
    · rename_i hab
      refine List.pairwise_cons.mpr ⟨?_, ih ht⟩
      intro y hy
      rcases (mem_insertDesc key a y t).mp hy with h | h
      · subst h
        exact le_of_lt hab
      · exact hb y h
    · rename_i hab
      push_neg at hab
      refine List.pairwise_cons.mpr ⟨?_, hl⟩
      intro y hy
      rcases List.mem_cons.mp hy with h | h
      · subst h
        exact hab
      · exact le_trans (hb y h) hab

theorem sortDesc_pairwise (key : α → ℤ) (l : List α) :
    (sortDesc key l).Pairwise (fun x y => key y ≤ key x) := by
  induction l with
  | nil => simp [sortDesc]
  | cons a t ih =>
    rw [sortDesc]
    exact insertDesc_pairwise key a _ ih

theorem filter_insertDesc (key : α → ℤ) (t : ℤ) (a : α) (l : List α)
    (hl : l.Pairwise (fun x y => key y ≤ key x)) :
    (insertDesc key a l).filter (fun e => key e == t)
      = if key a == t then a :: l.filter (fun e => key e == t)
        else l.filter (fun e => key e == t) := by
  induction l with
  | nil => simp [insertDesc, List.filter_cons, List.filter_nil]
  | cons b tl ih =>
    rcases List.pairwise_cons.mp hl with ⟨hb, htl⟩
    rw [insertDesc]
    split
    · rename_i hab
      rw [List.filter_cons, ih htl]
      by_cases hbt : key b = t
      · have hat : ¬ (key a = t) := by omega
        simp [hbt, hat, List.filter_cons]
      · by_cases hat : key a = t <;> simp [hbt, hat, List.filter_cons]
    · by_cases hat : key a = t <;> simp [hat, List.filter_cons]

theorem sortDesc_filter (key : α → ℤ) (t : ℤ) (l : List α) :
    (sortDesc key l).filter (fun e => key e == t)
      = l.filter (fun e => key e == t) := by
  induction l with
  | nil => simp [sortDesc]
  | cons a tl ih =>
    rw [sortDesc, filter_insertDesc key t a _ (sortDesc_pairwise key tl), ih,
      List.filter_cons]

/-! ## Data model and effect oracles -/

/-- The Python exception classes that matter to this module. -/
inductive PyExc where
  | sqliteError   -- any `sqlite3.Error`
  | osError       -- an `OSError` that is not `FileNotFoundError`
  | fileNotFound  -- `FileNotFoundError`
deriving DecidableEq, Repr

/-- A Python computation: a value or a propagating exception. -/
inductive PyResult (α : Type) where
  | ok (val : α)
  | exc (e : PyExc)
deriving DecidableEq, Repr

/-- `BrowserEntry` from `storage.py`; `visit_time` is a datetime
(microseconds since 1601-01-01, see the header). -/
structure BrowserEntry where
  source : String
  url : String
  title : Option String
  visit_time : ℤ
  query : Option String
  ip : Option String
deriving DecidableEq, Repr

/-- One row of the SQL join (`url`, `title`, raw timestamp tick). -/
structure Row where
  url : String
  title : Option String
  tick : ℤ
deriving DecidableEq, Repr

/-- The environment a run sees.  Paths are lists of components. -/
structure World where
  /-- `Path.home()` -/
  home : List String
  /-- the `LOCALAPPDATA` environment variable, as a path -/
  localAppData : Option (List String)
  /-- the `APPDATA` environment variable, as a path -/
  appData : Option (List String)
  /-- `Path.exists` -/
  pathExists : List String → Bool
  /-- `Path.is_dir` -/
  isDir : List String → Bool
  /-- `Path.iterdir`: immediate children of a directory -/
  iterdir : List String → List (List String)
  /-- `shutil.copy2` from this source path raises `OSError` -/
  copyFails : List String → Bool
  /-- contents of the sqlite database at a path: the rows of the
  pages/visits join, or `error ()` when opening/querying the (copied)
  database raises `sqlite3.Error` (corrupt, locked, schema mismatch) -/
  dbRows : List String → Except Unit (List Row)
  /-- `read_text().splitlines()` of a text file -/
  iniLines : List String → List String
  /-- result of the UDP-socket probe: the address from `getsockname`,
  or `error ()` when any socket call raises `OSError` -/
  ipResult : Except Unit String
  /-- local timezone, seconds east of UTC (fixed offset model) -/
  tz : ℤ
  /-- the temporary snapshot disappears before cleanup, so `unlink`
  raises `FileNotFoundError` -/
  tempVanishes : Bool

/-- `_resolve_local_ip` (lines 53–65): the socket result, `None` for the
empty string or a loopback `127.*` address, and `None` if `OSError` was
raised. -/
def _resolve_local_ip (w : World) : Option String :=
  match w.ipResult with
  | .error _ => none
  | .ok ip => if ip ≠ "" ∧ ¬ (ip.startsWith "127.") then some ip else none

/-- The `SELECT ... [WHERE tick >= since] ORDER BY tick DESC LIMIT n`
query, on the rows of the copied database.  SQLite semantics for the
bound `LIMIT` parameter: a negative limit means no limit, `LIMIT 0`
returns no rows.  SQL leaves the order of equal ticks unspecified; the
model picks the stable (table) order. -/
def sqlQuery (rows : List Row) (since : Option ℤ) (lim : ℤ) : List Row :=
  let filtered := match since with
    | some ts => rows.filter (fun r => ts ≤ r.tick)
    | none => rows
  let sorted := sortDesc (fun r => r.tick) filtered
  if lim < 0 then sorted else sorted.take lim.toNat

/-- `try: temp_path.unlink() except FileNotFoundError: pass`; returns
(does the file still exist, escaping exception). -/
def tempCleanup (present : Bool) : Bool × Option PyExc :=
  let unlinked : Bool × Option PyExc :=
    if present then (false, none) else (false, some PyExc.fileNotFound)
  match unlinked with
  | (p, some PyExc.fileNotFound) => (p, none)
  | other => other

/-- Result of one per-source database read, together with the state of
its temporary snapshot after the `finally` block. -/
structure DbReadResult where
  result : PyResult (List BrowserEntry)
  tempRemoved : Bool
deriving Repr

/-- `_read_chromium_db` (lines 137–179): make a temp file, resolve the
local IP, then inside `try`: copy the database (OSError propagates),
query it (`sqlite3.Error` is caught by `except` and yields `[]`), map
rows to entries; `finally`: remove the temp file, swallowing
`FileNotFoundError`. -/
def _read_chromium_db (w : World) (source : String) (dbPath : List String)
    (since : Option ℤ) (maxRows : ℤ) : DbReadResult :=
  let ip := _resolve_local_ip w
  let body : PyResult (List BrowserEntry) :=
    if w.copyFails dbPath then .exc .osError
    else match w.dbRows dbPath with
      | .error _ => .exc .sqliteError
      | .ok rows =>
        .ok ((sqlQuery rows (since.map _chromium_dt_to_ts) maxRows).map fun r =>
          ⟨source, r.url, r.title, _chromium_ts_to_dt r.tick, _extract_query r.url, ip⟩)
  let handled : PyResult (List BrowserEntry) :=
    match body with
    | .exc .sqliteError => .ok []
    | other => other
  match tempCleanup (!w.tempVanishes) with
  | (tempAfter, some e) => ⟨.exc e, !tempAfter⟩
  | (tempAfter, none) => ⟨handled, !tempAfter⟩

/-- The fixed WSL-style path baked into `KNOWN_HISTORY_PATHS`. -/
def mntChromeBase : List String :=
  ["/mnt/c/Users/Lenovo/AppData/Local/Google/Chrome/User Data"]

def mntEdgeBase : List String :=
  ["/mnt/c/Users/Lenovo/AppData/Local/Microsoft/Edge/User Data"]

/-- `KNOWN_HISTORY_PATHS` (lines 27–50), evaluated against the
environment; `None` entries (unset env vars) are filtered out, order
kept. -/
def knownHistoryPaths (w : World) (source : String) : List (List String) :=
  if source = "chrome" then
    [w.home ++ [".config", "google-chrome", "Default", "History"],
     w.home ++ [".config", "chromium", "Default", "History"]]
    ++ (match w.localAppData with
        | some lad => [lad ++ ["Google", "Chrome", "User Data", "Default", "History"]]
        | none => [])
    ++ [mntChromeBase ++ ["Default", "History"],
        mntChromeBase ++ ["Profile 1", "History"]]
  else if source = "edge" then
    [w.home ++ [".config", "microsoft-edge", "Default", "History"]]
    ++ (match w.localAppData with
        | some lad => [lad ++ ["Microsoft", "Edge", "User Data", "Default", "History"]]
        | none => [])
    ++ [mntEdgeBase ++ ["Default", "History"],
        mntEdgeBase ++ ["Profile 1", "History"]]
  else []

/-- `_chromium_profile_candidates` (lines 83–117): for each existing
base, the named profiles with an existing `History` file, then every
other subdirectory holding one, deduplicated against everything
collected so far. -/
def _chromium_profile_candidates (w : World) (source : String) : List (List String) :=
  let bases : List (Option (List String)) :=
    if source = "chrome" then
      [some (w.home ++ [".config", "google-chrome"]),
       some (w.home ++ [".config", "chromium"]),
       w.localAppData.map (fun lad => lad ++ ["Google", "Chrome", "User Data"]),
       some mntChromeBase]
    else if source = "edge" then
      [some (w.home ++ [".config", "microsoft-edge"]),
       w.localAppData.map (fun lad => lad ++ ["Microsoft", "Edge", "User Data"]),
       some mntEdgeBase]
    else []
  bases.foldl (fun acc obase =>
    match obase with
    | none => acc
    | some base =>
      if w.pathExists base then
        let acc1 := acc ++ (["Default", "Profile 1", "Profile 2", "Profile 3"].filterMap
          fun name =>
            let candidate := base ++ [name, "History"]
            if w.pathExists candidate then some candidate else none)
        (w.iterdir base).foldl (fun acc2 subdir =>
          if w.isDir subdir then
            let historyFile := subdir ++ ["History"]
            if w.pathExists historyFile && !(acc2.contains historyFile) then
              acc2 ++ [historyFile]
            else acc2
          else acc2) acc1
      else acc) []

/-- The database path `_read_chromium_like` settles on: first existing
known path, else first existing fallback candidate. -/
def chromiumChosenPath (w : World) (source : String) : Option (List String) :=
  match (knownHistoryPaths w source).find? (fun p => w.pathExists p) with
  | some p => some p
  | none => (_chromium_profile_candidates w source).find? (fun p => w.pathExists p)

/-- `_read_chromium_like` (lines 120–134). -/
def _read_chromium_like (w : World) (source : String) (since : Option ℤ)
    (maxRows : ℤ) : PyResult (List BrowserEntry) :=
  match chromiumChosenPath w source with
  | some p => (_read_chromium_db w source p since maxRows).result
  | none => .ok []

/-- Profile directory names from the profiles registry file
(lines 193–197): the `path=` lines (case-insensitive prefix), the text
after the first `=`, stripped. -/
def firefoxProfileDirs (w : World) (iniPath : List String) : List String :=
  (w.iniLines iniPath).filterMap fun line =>
    if (line.toLower).startsWith "path=" then
      some ((String.intercalate "=" ((line.splitOn "=").tail)).trim)
    else none

/-- Fixed WSL-style Firefox profile base (line 207). -/
def mntFirefoxBase : List String :=
  ["/mnt/c/Users/Lenovo/AppData/Roaming/Mozilla/Firefox/Profiles"]

/-- Database location for one profile (lines 202–212): the home
location; if missing and `APPDATA` is set, the `APPDATA` location; if
the selected path is still missing, the fixed `/mnt/c` location; `none`
means `continue`. -/
def firefoxDbCandidate (w : World) (profile : String) : Option (List String) :=
  let p1 := w.home ++ [".mozilla", "firefox", profile, "places.sqlite"]
  let p2 := match w.appData with
    | some ad =>
      if w.pathExists p1 then p1
      else ad ++ ["Mozilla", "Firefox", profile, "places.sqlite"]
    | none => p1
  if w.pathExists p2 then some p2
  else
    let alt := mntFirefoxBase ++ [profile, "places.sqlite"]
    if w.pathExists alt then some alt else none

/-- Result of the Firefox read: the returned value and whether every
temporary snapshot made by the loop was removed again. -/
structure FfReadResult where
  result : PyResult (List BrowserEntry)
  tempsRemoved : Bool
deriving Repr

/-- The `for profile in profile_dirs` loop of `_read_firefox`
(lines 201–252).  A profile without a database file is skipped; the
first profile with one ends the loop: its rows are returned, a
`sqlite3.Error` yields `return []`, a copy `OSError` propagates — in
every case after the `finally` cleanup of that iteration's snapshot. -/
def _read_firefox_loop (w : World) (ip : Option String) (since : Option ℤ)
    (maxRows : ℤ) : List String → FfReadResult
  | [] => ⟨.ok [], true⟩
  | profile :: rest =>
    match firefoxDbCandidate w profile with
    | none => _read_firefox_loop w ip since maxRows rest
    | some dbPath =>
      let body : PyResult (List BrowserEntry) :=
        if w.copyFails dbPath then .exc .osError
        else match w.dbRows dbPath with
          | .error _ => .exc .sqliteError
          | .ok rows =>
            .ok ((sqlQuery rows (since.map (_firefox_dt_to_ts w.tz)) maxRows).map
              fun r =>
                ⟨"firefox", r.url, r.title, _firefox_ts_to_dt r.tick,
                  _extract_query r.url, ip⟩)
      let handled : PyResult (List BrowserEntry) :=
        match body with
        | .exc .sqliteError => .ok []
        | other => other
      match tempCleanup (!w.tempVanishes) with
      | (tempAfter, some e) => ⟨.exc e, !tempAfter⟩
      | (tempAfter, none) => ⟨handled, !tempAfter⟩

/-- The `profiles.ini` path `_read_firefox` settles on (lines 185–191):
the home location, else the `APPDATA` location, else give up. -/
def firefoxIniPath (w : World) : Option (List String) :=
  let linuxIni := w.home ++ [".mozilla", "firefox", "profiles.ini"]
  if w.pathExists linuxIni then some linuxIni
  else match w.appData with
    | some ad =>
      let winIni := ad ++ ["Mozilla", "Firefox", "profiles.ini"]
      if w.pathExists winIni then some winIni else none
    | none => none

/-- `_read_firefox` (lines 182–252). -/
def _read_firefox (w : World) (since : Option ℤ) (maxRows : ℤ) : FfReadResult :=
  match firefoxIniPath w with
  | none => ⟨.ok [], true⟩
  | some ini =>
    let profiles := firefoxProfileDirs w ini
    let ip := _resolve_local_ip w
    _read_firefox_loop w ip since maxRows profiles

/-- The three sequential per-source reads of `fetch_browser_history`
(lines 71–78): the concatenation of the per-source entry lists, an
exception anywhere propagating immediately. -/
def gatherEntries (w : World) (browsers : List String) (since : Option ℤ)
    (maxRows : ℤ) : PyResult (List BrowserEntry) :=
  -- `normalized = {b.lower() for b in browsers}`, used only for the
  -- three membership tests, is inlined into them here
  match (if (browsers.map (fun b => b.toLower)).contains "chrome"
      then _read_chromium_like w "chrome" since maxRows else .ok []) with
  | .exc e => .exc e
  | .ok entries1 =>
    match (if (browsers.map (fun b => b.toLower)).contains "edge"
        then _read_chromium_like w "edge" since maxRows else .ok []) with
    | .exc e => .exc e
    | .ok entries2 =>
      match (if (browsers.map (fun b => b.toLower)).contains "firefox"
          then (_read_firefox w since maxRows).result else .ok []) with
      | .exc e => .exc e
      | .ok entries3 => .ok (entries1 ++ entries2 ++ entries3)

/-- `entries[:max_rows] if max_rows else entries` (line 80).  Python
slicing with a negative bound keeps all but the last `|max_rows|`
elements. -/
def pyTruncate (maxRows : ℤ) (l : List BrowserEntry) : List BrowserEntry :=
  if maxRows = 0 then l
  else if 0 ≤ maxRows then l.take maxRows.toNat
  else l.take (l.length - maxRows.natAbs)

/-- `fetch_browser_history` (lines 68–80): gather the requested
sources' entries, stable-sort by `visit_time` descending, slice. -/
def fetch_browser_history (w : World) (browsers : List String)
    (since : Option ℤ) (maxRows : ℤ) : PyResult (List BrowserEntry) :=
  match gatherEntries w browsers since maxRows with
  | .exc e => .exc e
  | .ok entries =>
    .ok (pyTruncate maxRows (sortDesc (fun en => en.visit_time) entries))

/-! ## Helper lemmas -/

theorem tempCleanup_eq (b : Bool) : tempCleanup b = (false, none) := by
  cases b <;> rfl

theorem read_chromium_db_tempRemoved (w : World) (source : String)
    (p : List String) (s : Option ℤ) (mr : ℤ) :
    (_read_chromium_db w source p s mr).tempRemoved = true := by
  unfold _read_chromium_db
  rw [tempCleanup_eq]
  rfl

theorem read_chromium_db_result (w : World) (source : String)
    (p : List String) (s : Option ℤ) (mr : ℤ) :
    (_read_chromium_db w source p s mr).result
      = if w.copyFails p then .exc .osError
        else match w.dbRows p with
          | .error _ => .ok []
          | .ok rows =>
            .ok ((sqlQuery rows (s.map _chromium_dt_to_ts) mr).map fun r =>
              ⟨source, r.url, r.title, _chromium_ts_to_dt r.tick,
                _extract_query r.url, _resolve_local_ip w⟩) := by
  unfold _read_chromium_db
  rw [tempCleanup_eq]
  by_cases hc : w.copyFails p
  · simp [hc]
  · cases hdb : w.dbRows p <;> simp [hc, hdb]

theorem read_chromium_db_no_fnf (w : World) (source : String)
    (p : List String) (s : Option ℤ) (mr : ℤ) :
    (_read_chromium_db w source p s mr).result ≠ .exc .fileNotFound := by
  rw [read_chromium_db_result]
  by_cases hc : w.copyFails p
  · simp [hc]
  · cases hdb : w.dbRows p <;> simp [hc, hdb]

theorem firefox_loop_tempsRemoved (w : World) (ip : Option String)
    (s : Option ℤ) (mr : ℤ) (ps : List String) :
    (_read_firefox_loop w ip s mr ps).tempsRemoved = true := by
  induction ps with
  | nil => rfl
  | cons profile rest ih =>
    rw [_read_firefox_loop]
    cases hc : firefoxDbCandidate w profile
    · simpa using ih
    · simp [tempCleanup_eq]

theorem firefox_loop_no_fnf (w : World) (ip : Option String)
    (s : Option ℤ) (mr : ℤ) (ps : List String) :
    (_read_firefox_loop w ip s mr ps).result ≠ .exc .fileNotFound := by
  induction ps with
  | nil => simp [_read_firefox_loop]
  | cons profile rest ih =>
    rw [_read_firefox_loop]
    cases hc : firefoxDbCandidate w profile
    · simpa using ih
    · rename_i dbPath
      rw [tempCleanup_eq]
      by_cases hcf : w.copyFails dbPath
      · simp [hcf]
      · cases hdb : w.dbRows dbPath <;> simp [hcf, hdb]

theorem mem_read_chromium_like (w : World) (source : String) (s : Option ℤ)
    (mr : ℤ) (es : List BrowserEntry) (en : BrowserEntry)
    (hok : _read_chromium_like w source s mr = .ok es) (hen : en ∈ es) :
    en.source = source ∧ en.ip = _resolve_local_ip w := by
  cases hp : chromiumChosenPath w source with
  | none =>
    simp only [_read_chromium_like, hp, PyResult.ok.injEq] at hok
    subst hok
    cases hen
  | some p =>
    simp only [_read_chromium_like, hp] at hok
    rw [read_chromium_db_result] at hok
    by_cases hc : w.copyFails p
    · rw [if_pos hc] at hok
      simp at hok
    · rw [if_neg hc] at hok
      cases hdb : w.dbRows p with
      | error e =>
        simp only [hdb, PyResult.ok.injEq] at hok
        subst hok
        cases hen
      | ok rows =>
        simp only [hdb, PyResult.ok.injEq] at hok
        subst hok
        rcases List.mem_map.mp hen with ⟨r, hr, hre⟩
        rw [← hre]
        exact ⟨rfl, rfl⟩

theorem mem_firefox_loop (w : World) (ip : Option String) (s : Option ℤ)
    (mr : ℤ) (ps : List String) (es : List BrowserEntry) (en : BrowserEntry)
    (hok : (_read_firefox_loop w ip s mr ps).result = .ok es) (hen : en ∈ es) :
    en.source = "firefox" ∧ en.ip = ip := by
  induction ps with
  | nil =>
    simp only [_read_firefox_loop, PyResult.ok.injEq] at hok
    subst hok
    cases hen
  | cons profile rest ih =>
    rw [_read_firefox_loop] at hok
    cases hp : firefoxDbCandidate w profile with
    | none =>
      rw [hp] at hok
      exact ih hok
    | some dbPath =>
      rw [hp] at hok
      simp only [tempCleanup_eq] at hok
      by_cases hc : w.copyFails dbPath
      · simp [hc] at hok
      · rw [if_neg hc] at hok
        cases hdb : w.dbRows dbPath with
        | error e =>
          simp only [hdb, PyResult.ok.injEq] at hok
          simp at hok
          subst hok
          cases hen
        | ok rows =>
          simp only [hdb] at hok
          simp at hok
          subst hok
          rcases List.mem_map.mp hen with ⟨r, hr, hre⟩
          rw [← hre]
          exact ⟨rfl, rfl⟩

theorem mem_read_firefox (w : World) (s : Option ℤ) (mr : ℤ)
    (es : List BrowserEntry) (en : BrowserEntry)
    (hok : (_read_firefox w s mr).result = .ok es) (hen : en ∈ es) :
    en.source = "firefox" ∧ en.ip = _resolve_local_ip w := by
  cases hini : firefoxIniPath w with
  | none =>
    simp only [_read_firefox, hini, PyResult.ok.injEq] at hok
    subst hok
    cases hen
  | some ini =>
    simp only [_read_firefox, hini] at hok
    exact mem_firefox_loop w _ s mr _ es en hok hen

/-- Membership in a successful gather: the entry belongs to one of the
three families, that family was requested, and the entry carries the
run's IP tag. -/
theorem mem_gather (w : World) (browsers : List String) (s : Option ℤ)
    (mr : ℤ) (xs : List BrowserEntry) (en : BrowserEntry)
    (hok : gatherEntries w browsers s mr = .ok xs) (hen : en ∈ xs) :
    (en.source = "chrome" ∨ en.source = "edge" ∨ en.source = "firefox")
      ∧ (browsers.map (fun b => b.toLower)).contains en.source = true
      ∧ en.ip = _resolve_local_ip w := by
  unfold gatherEntries at hok
  cases h1 : (if (browsers.map (fun b => b.toLower)).contains "chrome"
      then _read_chromium_like w "chrome" s mr else .ok []) with
  | exc e =>
    rw [h1] at hok
    simp at hok
  | ok es1 =>
    rw [h1] at hok
    cases h2 : (if (browsers.map (fun b => b.toLower)).contains "edge"
        then _read_chromium_like w "edge" s mr else .ok []) with
    | exc e =>
      rw [h2] at hok
      simp at hok
    | ok es2 =>
      rw [h2] at hok
      cases h3 : (if (browsers.map (fun b => b.toLower)).contains "firefox"
          then (_read_firefox w s mr).result else .ok []) with
      | exc e =>
        rw [h3] at hok
        simp at hok
      | ok es3 =>
        rw [h3] at hok
        simp only [PyResult.ok.injEq] at hok
        subst hok
        rcases List.mem_append.mp hen with hen12 | hen3
        · rcases List.mem_append.mp hen12 with hen1 | hen2
          · by_cases hreq : (browsers.map (fun b => b.toLower)).contains "chrome"
            · rw [if_pos hreq] at h1
              rcases mem_read_chromium_like w "chrome" s mr es1 en h1 hen1 with
                ⟨hsrc, hip⟩
              rw [hsrc]
              exact ⟨Or.inl rfl, hreq, hip⟩
            · rw [if_neg hreq] at h1
              simp only [PyResult.ok.injEq] at h1
              subst h1
              cases hen1
          · by_cases hreq : (browsers.map (fun b => b.toLower)).contains "edge"
            · rw [if_pos hreq] at h2
              rcases mem_read_chromium_like w "edge" s mr es2 en h2 hen2 with
                ⟨hsrc, hip⟩
              rw [hsrc]
              exact ⟨Or.inr (Or.inl rfl), hreq, hip⟩
            · rw [if_neg hreq] at h2
              simp only [PyResult.ok.injEq] at h2
              subst h2
              cases hen2
        · by_cases hreq : (browsers.map (fun b => b.toLower)).contains "firefox"
          · rw [if_pos hreq] at h3
            rcases mem_read_firefox w s mr es3 en h3 hen3 with ⟨hsrc, hip⟩
            rw [hsrc]
            exact ⟨Or.inr (Or.inr rfl), hreq, hip⟩
          · rw [if_neg hreq] at h3
            simp only [PyResult.ok.injEq] at h3
            subst h3
            cases hen3

/-- A successful fetch factors through a successful gather, and every
returned entry already occurs in the gathered concatenation. -/
theorem mem_fetch (w : World) (browsers : List String) (s : Option ℤ)
    (mr : ℤ) (l : List BrowserEntry) (en : BrowserEntry)
    (hok : fetch_browser_history w browsers s mr = .ok l) (hen : en ∈ l) :
    ∃ xs, gatherEntries w browsers s mr = .ok xs ∧ en ∈ xs := by
  cases hg : gatherEntries w browsers s mr with
  | exc e =>
    simp only [fetch_browser_history, hg] at hok
    simp at hok
  | ok xs =>
    simp only [fetch_browser_history, hg, PyResult.ok.injEq] at hok
    subst hok
    refine ⟨xs, rfl, ?_⟩
    have hsorted : en ∈ sortDesc (fun en => en.visit_time) xs := by
      have hsub : (pyTruncate mr (sortDesc (fun en => en.visit_time) xs)).Sublist
          (sortDesc (fun en => en.visit_time) xs) := by
        unfold pyTruncate
        split
        · exact List.Sublist.refl _
        · split <;> exact List.take_sublist _ _
      exact hsub.mem hen
    exact (sortDesc_perm (fun en => en.visit_time) xs).mem_iff.mp hsorted

theorem sqlQuery_zero (rows : List Row) (since : Option ℤ) :
    sqlQuery rows since 0 = [] := by
  simp [sqlQuery]

theorem read_chromium_like_ok_of_nocopy (w : World) (source : String)
    (s : Option ℤ) (mr : ℤ) (hcf : ∀ p, w.copyFails p = false) :
    ∃ es, _read_chromium_like w source s mr = .ok es
      ∧ (∀ p, chromiumChosenPath w source = some p → w.dbRows p = .error () →
          es = []) := by
  cases hp : chromiumChosenPath w source with
  | none =>
    refine ⟨[], by simp [_read_chromium_like, hp], ?_⟩
    intro p h
    cases h
  | some p =>
    cases hdb : w.dbRows p with
    | error e =>
      refine ⟨[], ?_, ?_⟩
      · simp only [_read_chromium_like, hp]
        rw [read_chromium_db_result, if_neg (by simp [hcf p]), hdb]
      · intro p' hp' hdb'
        rfl
    | ok rows =>
      refine ⟨(sqlQuery rows (s.map _chromium_dt_to_ts) mr).map
        (fun r => ⟨source, r.url, r.title, _chromium_ts_to_dt r.tick,
          _extract_query r.url, _resolve_local_ip w⟩), ?_, ?_⟩
      · simp only [_read_chromium_like, hp]
        rw [read_chromium_db_result, if_neg (by simp [hcf p]), hdb]
      · intro p' hp' hdb'
        cases hp'
        rw [hdb] at hdb'
        cases hdb'

theorem firefox_loop_ok_of_nocopy (w : World) (ip : Option String)
    (s : Option ℤ) (mr : ℤ) (ps : List String)
    (hcf : ∀ p, w.copyFails p = false) :
    ∃ es, (_read_firefox_loop w ip s mr ps).result = .ok es := by
  induction ps with
  | nil => exact ⟨[], rfl⟩
  | cons profile rest ih =>
    rw [_read_firefox_loop]
    cases hp : firefoxDbCandidate w profile with
    | none => exact ih
    | some dbPath =>
      simp only [tempCleanup_eq, hcf dbPath]
      cases hdb : w.dbRows dbPath with
      | error e => exact ⟨[], by simp [hdb]⟩
      | ok rows =>
        refine ⟨(sqlQuery rows (s.map (_firefox_dt_to_ts w.tz)) mr).map
          (fun r => ⟨"firefox", r.url, r.title, _firefox_ts_to_dt r.tick,
            _extract_query r.url, ip⟩), ?_⟩
        simp [hdb]

theorem read_firefox_ok_of_nocopy (w : World) (s : Option ℤ) (mr : ℤ)
    (hcf : ∀ p, w.copyFails p = false) :
    ∃ es, (_read_firefox w s mr).result = .ok es := by
  cases hini : firefoxIniPath w with
  | none => exact ⟨[], by simp [_read_firefox, hini]⟩
  | some ini =>
    simp only [_read_firefox, hini]
    exact firefox_loop_ok_of_nocopy w _ s mr _ hcf

theorem read_chromium_like_zero (w : World) (source : String) (s : Option ℤ)
    (es : List BrowserEntry)
    (hok : _read_chromium_like w source s 0 = .ok es) : es = [] := by
  cases hp : chromiumChosenPath w source with
  | none =>
    simp only [_read_chromium_like, hp, PyResult.ok.injEq] at hok
    exact hok.symm
  | some p =>
    simp only [_read_chromium_like, hp] at hok
    rw [read_chromium_db_result] at hok
    by_cases hc : w.copyFails p
    · rw [if_pos hc] at hok
      simp at hok
    · rw [if_neg hc] at hok
      cases hdb : w.dbRows p with
      | error e =>
        simp only [hdb, PyResult.ok.injEq] at hok
        exact hok.symm
      | ok rows =>
        simp only [hdb, sqlQuery_zero, List.map_nil, PyResult.ok.injEq] at hok
        exact hok.symm

theorem firefox_loop_zero (w : World) (ip : Option String) (s : Option ℤ)
    (ps : List String) (es : List BrowserEntry)
    (hok : (_read_firefox_loop w ip s 0 ps).result = .ok es) : es = [] := by
  induction ps with
  | nil =>
    simp only [_read_firefox_loop, PyResult.ok.injEq] at hok
    exact hok.symm
  | cons profile rest ih =>
    rw [_read_firefox_loop] at hok
    cases hp : firefoxDbCandidate w profile with
    | none =>
      rw [hp] at hok
      exact ih hok
    | some dbPath =>
      rw [hp] at hok
      simp only [tempCleanup_eq] at hok
      by_cases hc : w.copyFails dbPath
      · simp [hc] at hok
      · rw [if_neg hc] at hok
        cases hdb : w.dbRows dbPath with
        | error e =>
          simp only [hdb] at hok
          simp at hok
          exact hok
        | ok rows =>
          simp only [hdb, sqlQuery_zero, List.map_nil] at hok
          simp at hok
          exact hok

theorem read_firefox_zero (w : World) (s : Option ℤ) (es : List BrowserEntry)
    (hok : (_read_firefox w s 0).result = .ok es) : es = [] := by
  cases hini : firefoxIniPath w with
  | none =>
    simp only [_read_firefox, hini, PyResult.ok.injEq] at hok
    exact hok.symm
  | some ini =>
    simp only [_read_firefox, hini] at hok
    exact firefox_loop_zero w _ s _ es hok

theorem gather_zero (w : World) (browsers : List String) (s : Option ℤ)
    (xs : List BrowserEntry)
    (hok : gatherEntries w browsers s 0 = .ok xs) : xs = [] := by
  unfold gatherEntries at hok
  cases h1 : (if (browsers.map (fun b => b.toLower)).contains "chrome"
      then _read_chromium_like w "chrome" s 0 else .ok []) with
  | exc e =>
    rw [h1] at hok
    simp at hok
  | ok es1 =>
    rw [h1] at hok
    have hes1 : es1 = [] := by
      by_cases hreq : (browsers.map (fun b => b.toLower)).contains "chrome"
      · rw [if_pos hreq] at h1
        exact read_chromium_like_zero w "chrome" s es1 h1
      · rw [if_neg hreq] at h1
        simp only [PyResult.ok.injEq] at h1
        exact h1.symm
    cases h2 : (if (browsers.map (fun b => b.toLower)).contains "edge"
        then _read_chromium_like w "edge" s 0 else .ok []) with
    | exc e =>
      rw [h2] at hok
      simp at hok
    | ok es2 =>
      rw [h2] at hok
      have hes2 : es2 = [] := by
        by_cases hreq : (browsers.map (fun b => b.toLower)).contains "edge"
        · rw [if_pos hreq] at h2
          exact read_chromium_like_zero w "edge" s es2 h2
        · rw [if_neg hreq] at h2
          simp only [PyResult.ok.injEq] at h2
          exact h2.symm
      cases h3 : (if (browsers.map (fun b => b.toLower)).contains "firefox"
          then (_read_firefox w s 0).result else .ok []) with
      | exc e =>
        rw [h3] at hok
        simp at hok
      | ok es3 =>
        rw [h3] at hok
        have hes3 : es3 = [] := by
          by_cases hreq : (browsers.map (fun b => b.toLower)).contains "firefox"
          · rw [if_pos hreq] at h3
            exact read_firefox_zero w s es3 h3
          · rw [if_neg hreq] at h3
            simp only [PyResult.ok.injEq] at h3
            exact h3.symm
        simp only [PyResult.ok.injEq] at hok
        rw [hes1, hes2, hes3] at hok
        simpa using hok.symm

/-! ## Claims -/

set_option maxRecDepth 10000 in
/-- C1 (counterexample): the round-trip law as stated fails.  At the
representable datetime `1601-01-01 + 250000000000000016 µs` (year 9524;
the largest representable datetime lies `265046774399999999 µs` past the
epoch), converting to Chromium ticks and back lands 16 µs late: the
float in `total_seconds() * 1_000_000` has a 32 µs spacing at this
magnitude. -/
theorem chromium_roundtrip_micro_law_fails :
    _chromium_ts_to_dt (_chromium_dt_to_ts 250000000000000016)
        - 250000000000000016 = 16
      ∧ (250000000000000016 : ℤ) ≤ 265046774399999999 := by
  constructor
  · with_unfolding_all decide
  · decide

set_option maxRecDepth 10000 in
/-- C1 (corrected): the Chromium pair `_chromium_dt_to_ts` /
`_chromium_ts_to_dt` round-trips within 1 µs for every datetime from
the 1601 epoch up to tick `10^6 * 2^34` (about the year 2145), but not
on the whole representable range; and the Firefox pair is additionally
timezone-dependent — `_firefox_dt_to_ts` interprets the naive datetime
in the local timezone while `_firefox_ts_to_dt` uses UTC, so on a UTC+1
system a Firefox timestamp round-trips to exactly one hour earlier. -/
theorem timestamp_roundtrip_amended :
    (∀ u : ℤ, 0 ≤ u → u < 10 ^ 6 * 2 ^ 34 →
      |_chromium_ts_to_dt (_chromium_dt_to_ts u) - u| ≤ 1)
      ∧ _firefox_dt_to_ts 3600 (_firefox_ts_to_dt 1048576000000)
          = 1048576000000 - 3600 * 10 ^ 6 := by
  constructor
  · intro u h0 h1
    exact chromium_dt_to_ts_close u h0 h1
  · with_unfolding_all decide

/-- C1 witness: the bounded round-trip law at the concrete tick 424242. -/
theorem timestamp_roundtrip_amended_witness :
    |_chromium_ts_to_dt (_chromium_dt_to_ts 424242) - 424242| ≤ 1 :=
  timestamp_roundtrip_amended.1 424242 (by norm_num) (by norm_num)

/-! ### Concrete worlds used by counterexamples and witnesses -/

def homeChromeHistory : List String :=
  ["HOME", ".config", "google-chrome", "Default", "History"]

def homeEdgeHistory : List String :=
  ["HOME", ".config", "microsoft-edge", "Default", "History"]

/-- Chrome's database copy fails with `OSError`; Edge is healthy. -/
def isolationWorld : World :=
  ⟨["HOME"], none, none,
   fun p => p == homeChromeHistory || p == homeEdgeHistory,
   fun _ => false,
   fun _ => [],
   fun p => p == homeChromeHistory,
   fun p => if p == homeEdgeHistory
     then .ok [⟨"https://edge.example/", some "E", 13000000⟩] else .error (),
   fun _ => [],
   .ok "10.0.0.5", 0, false⟩

/-- Chrome's database is corrupt (sqlite error), Edge is healthy, and no
copy fails. -/
def isolationWorldOk : World :=
  ⟨["HOME"], none, none,
   fun p => p == homeChromeHistory || p == homeEdgeHistory,
   fun _ => false,
   fun _ => [],
   fun _ => false,
   fun p => if p == homeEdgeHistory
     then .ok [⟨"https://edge.example/", some "E", 13000000⟩] else .error (),
   fun _ => [],
   .ok "10.0.0.5", 0, false⟩

/-- A healthy Chrome database holding one visit. -/
def zeroCapWorld : World :=
  ⟨["HOME"], none, none,
   fun p => p == homeChromeHistory,
   fun _ => false,
   fun _ => [],
   fun _ => false,
   fun p => if p == homeChromeHistory
     then .ok [⟨"https://a.example/", none, 5⟩] else .error (),
   fun _ => [],
   .ok "10.0.0.5", 0, false⟩

/-- A healthy Chrome database holding two visits at ticks 5 and 9. -/
def capWorld : World :=
  ⟨["HOME"], none, none,
   fun p => p == homeChromeHistory,
   fun _ => false,
   fun _ => [],
   fun _ => false,
   fun p => if p == homeChromeHistory
     then .ok [⟨"https://a.example/", none, 5⟩, ⟨"https://b.example/", none, 9⟩]
     else .error (),
   fun _ => [],
   .ok "10.0.0.5", 0, false⟩

/-- C2 (counterexample): the claim as stated is false.  In
`isolationWorld` the Chrome source's `shutil.copy2` raises `OSError`
while the Edge source is perfectly healthy, yet `fetch_browser_history`
raises instead of returning Edge's records: the `except sqlite3.Error`
handler does not cover copy failures. -/
theorem copy_failure_escapes_fetch :
    fetch_browser_history isolationWorld ["chrome", "edge"] none 100
        = .exc .osError
      ∧ isolationWorld.dbRows homeEdgeHistory
          = .ok [⟨"https://edge.example/", some "E", 13000000⟩]
      ∧ isolationWorld.copyFails homeChromeHistory = true := by
  refine ⟨?_, ?_, ?_⟩
  · with_unfolding_all decide
  · with_unfolding_all rfl
  · with_unfolding_all decide

/-- C2 (corrected): per-source sqlite-level failures (corrupt, locked,
schema mismatch) are caught at the source boundary and contribute zero
records, the other sources' reads still run and are merged, and no
exception escapes — provided no copy step fails; a copy failure raises
an `OSError` that escapes `fetch_browser_history` (see the
counterexample). -/
theorem fetch_isolates_sqlite_failures :
    ∀ (w : World) (browsers : List String) (s : Option ℤ) (mr : ℤ),
    (∀ p, w.copyFails p = false) →
    ∃ l, fetch_browser_history w browsers s mr = .ok l
      ∧ (∃ xs, gatherEntries w browsers s mr = .ok xs
          ∧ l = pyTruncate mr (sortDesc (fun en => en.visit_time) xs))
      ∧ (∀ src p, chromiumChosenPath w src = some p → w.dbRows p = .error () →
          ∀ en, en ∈ l → en.source ≠ src) := by
  intro w browsers s mr hcf
  -- each of the three reads succeeds
  obtain ⟨ec, hec, hecfail⟩ :=
    read_chromium_like_ok_of_nocopy w "chrome" s mr hcf
  obtain ⟨ee, hee, heefail⟩ :=
    read_chromium_like_ok_of_nocopy w "edge" s mr hcf
  obtain ⟨ef, hef⟩ := read_firefox_ok_of_nocopy w s mr hcf
  have hstep1 : ∃ es1, (if (browsers.map (fun b => b.toLower)).contains "chrome"
      then _read_chromium_like w "chrome" s mr else .ok []) = .ok es1
      ∧ (es1 = ec ∨ es1 = []) := by
    by_cases hreq : (browsers.map (fun b => b.toLower)).contains "chrome"
    · exact ⟨ec, by rw [if_pos hreq]; exact hec, Or.inl rfl⟩
    · exact ⟨[], by rw [if_neg hreq], Or.inr rfl⟩
  have hstep2 : ∃ es2, (if (browsers.map (fun b => b.toLower)).contains "edge"
      then _read_chromium_like w "edge" s mr else .ok []) = .ok es2
      ∧ (es2 = ee ∨ es2 = []) := by
    by_cases hreq : (browsers.map (fun b => b.toLower)).contains "edge"
    · exact ⟨ee, by rw [if_pos hreq]; exact hee, Or.inl rfl⟩
    · exact ⟨[], by rw [if_neg hreq], Or.inr rfl⟩
  have hstep3 : ∃ es3, (if (browsers.map (fun b => b.toLower)).contains "firefox"
      then (_read_firefox w s mr).result else .ok []) = .ok es3 := by
    by_cases hreq : (browsers.map (fun b => b.toLower)).contains "firefox"
    · exact ⟨ef, by rw [if_pos hreq]; exact hef⟩
    · exact ⟨[], by rw [if_neg hreq]⟩
  obtain ⟨es1, hs1, hcase1⟩ := hstep1
  obtain ⟨es2, hs2, hcase2⟩ := hstep2
  obtain ⟨es3, hs3⟩ := hstep3
  have hg : gatherEntries w browsers s mr = .ok (es1 ++ es2 ++ es3) := by
    unfold gatherEntries
    rw [hs1, hs2, hs3]
  refine ⟨pyTruncate mr (sortDesc (fun en => en.visit_time) (es1 ++ es2 ++ es3)),
    ?_, ⟨es1 ++ es2 ++ es3, hg, rfl⟩, ?_⟩
  · unfold fetch_browser_history
    rw [hg]
  · intro src p hpath hdb en hen hsrc
    have hmem := mem_fetch w browsers s mr _ en
      (by unfold fetch_browser_history; rw [hg]) hen
    obtain ⟨xs, hxs, henxs⟩ := hmem
    rw [hg] at hxs
    cases hxs
    rcases List.mem_append.mp henxs with hen12 | hen3
    · rcases List.mem_append.mp hen12 with hen1 | hen2
      · -- entry from the chrome read
        rcases hcase1 with hceq | hne
        · subst hceq
          rcases mem_read_chromium_like w "chrome" s mr _ en hec hen1 with
            ⟨hchrome, _⟩
          rw [hchrome] at hsrc
          subst hsrc
          have := hecfail p hpath hdb
          subst this
          cases hen1
        · rw [hne] at hen1
          cases hen1
      · rcases hcase2 with hceq | hne
        · subst hceq
          rcases mem_read_chromium_like w "edge" s mr _ en hee hen2 with
            ⟨hedge, _⟩
          rw [hedge] at hsrc
          subst hsrc
          have := heefail p hpath hdb
          subst this
          cases hen2
        · rw [hne] at hen2
          cases hen2
    · -- entry from firefox: its source is "firefox", but
      -- `chromiumChosenPath w "firefox"` is always `none`
      by_cases hreq : (browsers.map (fun b => b.toLower)).contains "firefox"
      · rw [if_pos hreq] at hs3
        rcases mem_read_firefox w s mr _ en hs3 hen3 with ⟨hff, _⟩
        rw [hff] at hsrc
        subst hsrc
        have hnone : chromiumChosenPath w "firefox" = none := by
          simp [chromiumChosenPath, knownHistoryPaths,
            _chromium_profile_candidates]
        rw [hnone] at hpath
        cases hpath
      · rw [if_neg hreq] at hs3
        simp only [PyResult.ok.injEq] at hs3
        subst hs3
        cases hen3

/-- C2 witness: in `isolationWorldOk` no copy fails, so the amended
isolation law applies. -/
theorem fetch_isolates_sqlite_failures_witness :
    ∃ l, fetch_browser_history isolationWorldOk ["chrome", "edge"] none 100
        = .ok l
      ∧ (∃ xs, gatherEntries isolationWorldOk ["chrome", "edge"] none 100
            = .ok xs
          ∧ l = pyTruncate 100 (sortDesc (fun en => en.visit_time) xs))
      ∧ (∀ src p, chromiumChosenPath isolationWorldOk src = some p →
          isolationWorldOk.dbRows p = .error () →
          ∀ en, en ∈ l → en.source ≠ src) :=
  fetch_isolates_sqlite_failures isolationWorldOk ["chrome", "edge"] none 100
    (fun _ => rfl)

/-- C3 (counterexample): the claim as stated is false.  In
`zeroCapWorld` the Chrome database holds one visit, yet
`fetch_browser_history` with `maxRows = 0` returns no records: the
per-source query runs with `LIMIT 0`, which returns zero rows. -/
theorem maxrows_zero_returns_nothing :
    fetch_browser_history zeroCapWorld ["chrome"] none 0 = .ok []
      ∧ zeroCapWorld.dbRows homeChromeHistory
          = .ok [⟨"https://a.example/", none, 5⟩] := by
  refine ⟨?_, ?_⟩
  · with_unfolding_all decide
  · with_unfolding_all rfl

/-- C3 (corrected): `maxRows = 0` disables the final truncation
(`entries[:max_rows] if max_rows else entries`), but every per-source
query still binds `max_rows` to its SQL `LIMIT`, and `LIMIT 0` returns
no rows — so zero effectively means "return nothing": every successful
fetch with `maxRows = 0` is empty. -/
theorem maxrows_zero_amended :
    (∀ (rows : List Row) (since : Option ℤ), sqlQuery rows since 0 = [])
      ∧ (∀ (w : World) (browsers : List String) (s : Option ℤ)
          (l : List BrowserEntry),
          fetch_browser_history w browsers s 0 = .ok l → l = []) := by
  constructor
  · exact sqlQuery_zero
  · intro w browsers s l hok
    cases hg : gatherEntries w browsers s 0 with
    | exc e =>
      simp only [fetch_browser_history, hg] at hok
      simp at hok
    | ok xs =>
      have hxs : xs = [] := gather_zero w browsers s xs hg
      simp only [fetch_browser_history, hg, PyResult.ok.injEq] at hok
      subst hxs
      rw [← hok]
      rfl

/-- C3 witness: the amended law at `zeroCapWorld` (one stored visit). -/
theorem maxrows_zero_amended_witness :
    sqlQuery [⟨"https://a.example/", none, 5⟩] none 0 = []
      ∧ ([] : List BrowserEntry) = [] :=
  ⟨maxrows_zero_amended.1 [⟨"https://a.example/", none, 5⟩] none,
   maxrows_zero_amended.2 zeroCapWorld ["chrome"] none []
     (by with_unfolding_all decide)⟩

/-- C4 (confirmed): whenever `maxRows > 0`, a successful
`fetch_browser_history` returns at most `maxRows` records — the final
slice `entries[:max_rows]` caps the merged list. -/
theorem fetch_cap_invariant :
    ∀ (w : World) (browsers : List String) (s : Option ℤ) (mr : ℤ)
      (l : List BrowserEntry),
    0 < mr → fetch_browser_history w browsers s mr = .ok l →
    (l.length : ℤ) ≤ mr := by
  intro w browsers s mr l hmr hok
  cases hg : gatherEntries w browsers s mr with
  | exc e =>
    simp only [fetch_browser_history, hg] at hok
    simp at hok
  | ok xs =>
    simp only [fetch_browser_history, hg, PyResult.ok.injEq] at hok
    subst hok
    unfold pyTruncate
    rw [if_neg (by omega), if_pos (le_of_lt hmr)]
    have hlen := List.length_take_le mr.toNat
      (sortDesc (fun en => en.visit_time) xs)
    calc ((List.take mr.toNat (sortDesc (fun en => en.visit_time) xs)).length : ℤ)
        ≤ (mr.toNat : ℤ) := by exact_mod_cast hlen
      _ = mr := Int.toNat_of_nonneg (le_of_lt hmr)

/-- C4 witness: `capWorld` holds two visits; with `maxRows = 1` the
fetch returns exactly one record. -/
theorem fetch_cap_invariant_witness :
    (([⟨"chrome", "https://b.example/", none, 9, none, some "10.0.0.5"⟩]
        : List BrowserEntry).length : ℤ) ≤ 1 :=
  fetch_cap_invariant capWorld ["chrome"] none 1
    [⟨"chrome", "https://b.example/", none, 9, none, some "10.0.0.5"⟩]
    (by norm_num) (by with_unfolding_all decide)

/-- C5 (confirmed): every successful fetch result is sorted by
`visit_time` in non-increasing order, and the sort is stable: the
records holding any fixed `visit_time` appear in the same relative
order as in the concatenated per-source lists (`List.Sublist` because
the final slice may drop a tail). -/
theorem fetch_sorted_stable :
    ∀ (w : World) (browsers : List String) (s : Option ℤ) (mr : ℤ)
      (xs : List BrowserEntry),
    gatherEntries w browsers s mr = .ok xs →
    ∃ l, fetch_browser_history w browsers s mr = .ok l
      ∧ l.Pairwise (fun a b => b.visit_time ≤ a.visit_time)
      ∧ ∀ t : ℤ, (l.filter (fun en => en.visit_time == t)).Sublist
          (xs.filter (fun en => en.visit_time == t)) := by
  intro w browsers s mr xs hg
  refine ⟨pyTruncate mr (sortDesc (fun en => en.visit_time) xs), ?_, ?_, ?_⟩
  · unfold fetch_browser_history
    rw [hg]
  · have hsub : (pyTruncate mr (sortDesc (fun en => en.visit_time) xs)).Sublist
        (sortDesc (fun en => en.visit_time) xs) := by
      unfold pyTruncate
      split
      · exact List.Sublist.refl _
      · split <;> exact List.take_sublist _ _
    exact (sortDesc_pairwise (fun en => en.visit_time) xs).sublist hsub
  · intro t
    have hsub : (pyTruncate mr (sortDesc (fun en => en.visit_time) xs)).Sublist
        (sortDesc (fun en => en.visit_time) xs) := by
      unfold pyTruncate
      split
      · exact List.Sublist.refl _
      · split <;> exact List.take_sublist _ _
    have hfil := hsub.filter (fun en => en.visit_time == t)
    rw [sortDesc_filter (fun en => en.visit_time) t xs] at hfil
    exact hfil

/-- C5 witness: the sortedness and stability law at `capWorld`. -/
theorem fetch_sorted_stable_witness :
    ∃ l, fetch_browser_history capWorld ["chrome"] none 10 = .ok l
      ∧ l.Pairwise (fun a b => b.visit_time ≤ a.visit_time)
      ∧ ∀ t : ℤ, (l.filter (fun en => en.visit_time == t)).Sublist
          (([⟨"chrome", "https://b.example/", none, 9, none, some "10.0.0.5"⟩,
             ⟨"chrome", "https://a.example/", none, 5, none, some "10.0.0.5"⟩]
            : List BrowserEntry).filter (fun en => en.visit_time == t)) :=
  fetch_sorted_stable capWorld ["chrome"] none 10
    [⟨"chrome", "https://b.example/", none, 9, none, some "10.0.0.5"⟩,
     ⟨"chrome", "https://a.example/", none, 5, none, some "10.0.0.5"⟩]
    (by with_unfolding_all decide)

/-- C6 (confirmed): on every path through a per-source extraction —
success, sqlite failure, copy failure — the temporary snapshot is gone
after the `finally` block, and a cleanup `FileNotFoundError` (file
already removed) is swallowed, never reported: the result is never a
propagating `FileNotFoundError`.  Stated for `_read_chromium_db` and
for every iteration list of the `_read_firefox` profile loop. -/
theorem temp_snapshot_always_removed :
    ∀ (w : World) (source : String) (p : List String) (s : Option ℤ)
      (mr : ℤ) (ip : Option String) (ps : List String),
    (_read_chromium_db w source p s mr).tempRemoved = true
      ∧ (_read_chromium_db w source p s mr).result ≠ .exc .fileNotFound
      ∧ (_read_firefox_loop w ip s mr ps).tempsRemoved = true
      ∧ (_read_firefox_loop w ip s mr ps).result ≠ .exc .fileNotFound :=
  fun w source p s mr ip ps =>
    ⟨read_chromium_db_tempRemoved w source p s mr,
     read_chromium_db_no_fnf w source p s mr,
     firefox_loop_tempsRemoved w ip s mr ps,
     firefox_loop_no_fnf w ip s mr ps⟩

def ffIni : List String := ["HOME", ".mozilla", "firefox", "profiles.ini"]

def ffDb1 : List String := ["HOME", ".mozilla", "firefox", "p1", "places.sqlite"]

def ffDb2 : List String := ["HOME", ".mozilla", "firefox", "p2", "places.sqlite"]

/-- Two Firefox profiles: `p1` has an unreadable (corrupt) places
database, `p2` a healthy one. -/
def ffWorld : World :=
  ⟨["HOME"], none, none,
   fun p => p == ffIni || p == ffDb1 || p == ffDb2,
   fun _ => false,
   fun _ => [],
   fun _ => false,
   fun p => if p == ffDb2 then .ok [⟨"https://f.example/", none, 7⟩]
     else .error (),
   fun p => if p == ffIni
     then ["[Profile0]", "Path=p1", "[Profile1]", "Path=p2"] else [],
   .ok "10.0.0.5", 0, false⟩

/-- C7 (counterexample): the claim as stated is false.  In `ffWorld`
profile `p1` (first in file order) has a places database that exists
but is unreadable, and profile `p2` has a healthy one — yet
`_read_firefox` returns zero records instead of trying `p2`: the
`except sqlite3.Error: return []` inside the loop ends the scan. -/
theorem firefox_unreadable_profile_stops_scan :
    (_read_firefox ffWorld none 50).result = .ok []
      ∧ firefoxProfileDirs ffWorld ffIni = ["p1", "p2"]
      ∧ firefoxDbCandidate ffWorld "p1" = some ffDb1
      ∧ ffWorld.dbRows ffDb1 = .error ()
      ∧ firefoxDbCandidate ffWorld "p2" = some ffDb2
      ∧ ffWorld.dbRows ffDb2 = .ok [⟨"https://f.example/", none, 7⟩] := by
  refine ⟨?_, ?_, ?_, ?_, ?_, ?_⟩
  · with_unfolding_all decide
  · with_unfolding_all decide
  · with_unfolding_all decide
  · with_unfolding_all rfl
  · with_unfolding_all decide
  · with_unfolding_all rfl

/-- C7 (corrected): Firefox extraction enumerates profile names from
the `path=` lines of the profiles registry file and, per profile in
file order, picks the first existing location among the home, `APPDATA`
and fixed `/mnt/c` paths; profiles with no database file anywhere are
skipped in order — but the scan stops at the first profile whose
database *file exists*: if that database is unreadable, Firefox
extraction returns zero records without trying later profiles. -/
theorem firefox_profile_scan_amended :
    (∀ (w : World) (profile : String),
      w.pathExists (w.home ++ [".mozilla", "firefox", profile, "places.sqlite"])
          = true →
      firefoxDbCandidate w profile
        = some (w.home ++ [".mozilla", "firefox", profile, "places.sqlite"]))
    ∧ (∀ (w : World) (profile : String) (ad : List String),
        w.appData = some ad →
        w.pathExists (w.home ++ [".mozilla", "firefox", profile, "places.sqlite"])
            = false →
        w.pathExists (ad ++ ["Mozilla", "Firefox", profile, "places.sqlite"])
            = true →
        firefoxDbCandidate w profile
          = some (ad ++ ["Mozilla", "Firefox", profile, "places.sqlite"]))
    ∧ (∀ (w : World) (profile : String),
        w.appData = none →
        w.pathExists (w.home ++ [".mozilla", "firefox", profile, "places.sqlite"])
            = false →
        w.pathExists (mntFirefoxBase ++ [profile, "places.sqlite"]) = true →
        firefoxDbCandidate w profile
          = some (mntFirefoxBase ++ [profile, "places.sqlite"]))
    ∧ (∀ (w : World) (profile : String) (ad : List String),
        w.appData = some ad →
        w.pathExists (w.home ++ [".mozilla", "firefox", profile, "places.sqlite"])
            = false →
        w.pathExists (ad ++ ["Mozilla", "Firefox", profile, "places.sqlite"])
            = false →
        w.pathExists (mntFirefoxBase ++ [profile, "places.sqlite"]) = true →
        firefoxDbCandidate w profile
          = some (mntFirefoxBase ++ [profile, "places.sqlite"]))
    ∧ (∀ (w : World) (ip : Option String) (s : Option ℤ) (mr : ℤ)
        (profile : String) (rest : List String),
        firefoxDbCandidate w profile = none →
        _read_firefox_loop w ip s mr (profile :: rest)
          = _read_firefox_loop w ip s mr rest)
    ∧ (∀ (w : World) (ip : Option String) (s : Option ℤ) (mr : ℤ)
        (profile : String) (rest : List String) (dbPath : List String),
        firefoxDbCandidate w profile = some dbPath →
        w.copyFails dbPath = false →
        w.dbRows dbPath = .error () →
        (_read_firefox_loop w ip s mr (profile :: rest)).result = .ok []) := by
  refine ⟨?_, ?_, ?_, ?_, ?_, ?_⟩
  · intro w profile h
    cases had : w.appData <;> simp [firefoxDbCandidate, had, h]
  · intro w profile ad had h1 h2
    simp [firefoxDbCandidate, had, h1, h2]
  · intro w profile had h1 h2
    simp [firefoxDbCandidate, had, h1, h2]
  · intro w profile ad had h1 h2 h3
    simp [firefoxDbCandidate, had, h1, h2, h3]
  · intro w ip s mr profile rest h
    rw [_read_firefox_loop, h]
  · intro w ip s mr profile rest dbPath h hcf hdb
    rw [_read_firefox_loop, h]
    simp [tempCleanup_eq, hcf, hdb]

/-- C7 witness: the stop-at-first-found law at `ffWorld`: profile `p1`
has an unreadable database, so the loop over `["p1", "p2"]` yields no
records. -/
theorem firefox_profile_scan_amended_witness :
    (_read_firefox_loop ffWorld (some "10.0.0.5") none 50 ["p1", "p2"]).result
      = .ok [] :=
  firefox_profile_scan_amended.2.2.2.2.2 ffWorld (some "10.0.0.5") none 50
    "p1" ["p2"] ffDb1 (by with_unfolding_all decide)
    (by with_unfolding_all decide) (by with_unfolding_all rfl)

theorem qsFirst_eq_none (ps : List (String × String)) (k : String)
    (h : ∀ pr, pr ∈ ps → pr.1 ≠ k) : qsFirst ps k = none := by
  unfold qsFirst
  have hfil : ps.filter (fun pr => pr.1 == k) = [] := by
    rw [List.filter_eq_nil]
    intro pr hpr
    simpa using h pr hpr
  rw [hfil]

/-- C8 (confirmed): `searchQuery` comes from the URL's parsed query
string, with the keys `q`, `query`, `text` tried in that priority
order; if a key is present the first value of the first present key is
returned, otherwise the result is absent — and on the spec's examples,
`?q=rust+ownership&x=1` yields `"rust ownership"` and a query-free URL
yields nothing. -/
theorem extract_query_priority :
    (∀ url : String,
        (∀ pr, pr ∈ parse_qsl (urlQuery url) →
          pr.1 ≠ "q" ∧ pr.1 ≠ "query" ∧ pr.1 ≠ "text") →
        _extract_query url = none)
      ∧ (∀ (url v : String),
          qsFirst (parse_qsl (urlQuery url)) "q" = some v →
          _extract_query url = some v)
      ∧ (∀ (url v : String),
          qsFirst (parse_qsl (urlQuery url)) "q" = none →
          qsFirst (parse_qsl (urlQuery url)) "query" = some v →
          _extract_query url = some v)
      ∧ (∀ (url v : String),
          qsFirst (parse_qsl (urlQuery url)) "q" = none →
          qsFirst (parse_qsl (urlQuery url)) "query" = none →
          qsFirst (parse_qsl (urlQuery url)) "text" = some v →
          _extract_query url = some v)
      ∧ _extract_query "https://example.com/search?q=rust+ownership&x=1"
          = some "rust ownership"
      ∧ _extract_query "https://example.com/page" = none := by
  refine ⟨?_, ?_, ?_, ?_, ?_, ?_⟩
  · intro url h
    have h1 : qsFirst (parse_qsl (urlQuery url)) "q" = none :=
      qsFirst_eq_none _ _ (fun pr hpr => (h pr hpr).1)
    have h2 : qsFirst (parse_qsl (urlQuery url)) "query" = none :=
      qsFirst_eq_none _ _ (fun pr hpr => (h pr hpr).2.1)
    have h3 : qsFirst (parse_qsl (urlQuery url)) "text" = none :=
      qsFirst_eq_none _ _ (fun pr hpr => (h pr hpr).2.2)
    simp [_extract_query, List.findSome?_cons, h1, h2, h3]
  · intro url v h
    simp [_extract_query, List.findSome?_cons, h]
  · intro url v h1 h2
    simp [_extract_query, List.findSome?_cons, h1, h2]
  · intro url v h1 h2 h3
    simp [_extract_query, List.findSome?_cons, h1, h2, h3]
  · with_unfolding_all decide
  · with_unfolding_all decide

/-- C8 witness: the priority law applied at a concrete URL whose query
carries a `q` key. -/
theorem extract_query_priority_witness :
    _extract_query "https://w.example/?q=a" = some "a" :=
  extract_query_priority.2.1 "https://w.example/?q=a" "a"
    (by with_unfolding_all decide)

/-- The source-level guard of `_resolve_local_ip`: the returned address
is never a loopback `127.*` address. -/
theorem resolve_local_ip_not_loopback (w : World) (ips : String)
    (h : _resolve_local_ip w = some ips) : ips.startsWith "127." = false := by
  cases hres : w.ipResult with
  | error e => simp [_resolve_local_ip, hres] at h
  | ok ip =>
    simp only [_resolve_local_ip, hres] at h
    by_cases hcond : ip ≠ "" ∧ ¬ (ip.startsWith "127.")
    · rw [if_pos hcond] at h
      simp only [Option.some.injEq] at h
      subst h
      simpa using hcond.2
    · rw [if_neg hcond] at h
      simp at h

/-- A healthy Chrome database with one visit, used to witness the IP
invariant. -/
def ipWorld : World :=
  ⟨["HOME"], none, none,
   fun p => p == homeChromeHistory,
   fun _ => false,
   fun _ => [],
   fun _ => false,
   fun p => if p == homeChromeHistory
     then .ok [⟨"https://a.example/", none, 5⟩] else .error (),
   fun _ => [],
   .ok "10.0.0.5", 0, false⟩

/-- C9 (confirmed): `_resolve_local_ip` never returns an address
starting with `"127."` (it yields `None` instead), so every record a
fetch returns carries either no `ip` or a non-loopback address. -/
theorem ip_never_loopback :
    (∀ (w : World) (ips : String),
        _resolve_local_ip w = some ips → ips.startsWith "127." = false)
      ∧ (∀ (w : World) (browsers : List String) (s : Option ℤ) (mr : ℤ)
          (l : List BrowserEntry) (en : BrowserEntry) (ips : String),
          fetch_browser_history w browsers s mr = .ok l → en ∈ l →
          en.ip = some ips → ips.startsWith "127." = false) := by
  constructor
  · exact resolve_local_ip_not_loopback
  · intro w browsers s mr l en ips hok hen hip
    obtain ⟨xs, hg, henxs⟩ := mem_fetch w browsers s mr l en hok hen
    obtain ⟨_, _, hipen⟩ := mem_gather w browsers s mr xs en hg henxs
    rw [hipen] at hip
    exact resolve_local_ip_not_loopback w ips hip

/-- C9 witness: the fetched record of `ipWorld` carries the probe's
address `10.0.0.5`, which is not loopback. -/
theorem ip_never_loopback_witness :
    ("10.0.0.5").startsWith "127." = false :=
  ip_never_loopback.2 ipWorld ["chrome"] none 5
    [⟨"chrome", "https://a.example/", none, 5, none, some "10.0.0.5"⟩]
    ⟨"chrome", "https://a.example/", none, 5, none, some "10.0.0.5"⟩
    "10.0.0.5" (by with_unfolding_all decide) (by with_unfolding_all decide)
    rfl

/-- Same shape as `ipWorld`, used to witness the source-tag invariant. -/
def tagWorld : World :=
  ⟨["HOME"], none, none,
   fun p => p == homeChromeHistory,
   fun _ => false,
   fun _ => [],
   fun _ => false,
   fun p => if p == homeChromeHistory
     then .ok [⟨"https://a.example/", none, 5⟩] else .error (),
   fun _ => [],
   .ok "10.0.0.5", 0, false⟩

/-- C10 (confirmed): every record a fetch returns has source `chrome`,
`edge` or `firefox`, and a record tagged with a family appears only
when some requested browser name lowercases to that family. -/
theorem source_tags_requested_families :
    ∀ (w : World) (browsers : List String) (s : Option ℤ) (mr : ℤ)
      (l : List BrowserEntry) (en : BrowserEntry),
    fetch_browser_history w browsers s mr = .ok l → en ∈ l →
    (en.source = "chrome" ∨ en.source = "edge" ∨ en.source = "firefox")
      ∧ ∃ b0, b0 ∈ browsers ∧ b0.toLower = en.source := by
  intro w browsers s mr l en hok hen
  obtain ⟨xs, hg, henxs⟩ := mem_fetch w browsers s mr l en hok hen
  obtain ⟨hsrc, hcont, _⟩ := mem_gather w browsers s mr xs en hg henxs
  refine ⟨hsrc, ?_⟩
  rcases List.contains_iff_exists_mem_beq.mp hcont with ⟨b1, hb1, hbeq⟩
  have hb1eq : en.source = b1 := by simpa using hbeq
  rcases List.mem_map.mp hb1 with ⟨b0, hb0, hb0eq⟩
  exact ⟨b0, hb0, by rw [hb0eq, ← hb1eq]⟩

/-- C10 witness: requesting `["Chrome"]` (case-insensitive) in
`tagWorld` yields a record tagged `chrome`. -/
theorem source_tags_requested_families_witness :
    ((⟨"chrome", "https://a.example/", none, 5, none, some "10.0.0.5"⟩
        : BrowserEntry).source = "chrome"
      ∨ (⟨"chrome", "https://a.example/", none, 5, none, some "10.0.0.5"⟩
          : BrowserEntry).source = "edge"
      ∨ (⟨"chrome", "https://a.example/", none, 5, none, some "10.0.0.5"⟩
          : BrowserEntry).source = "firefox")
      ∧ ∃ b0, b0 ∈ ["Chrome"]
          ∧ b0.toLower = (⟨"chrome", "https://a.example/", none, 5, none,
              some "10.0.0.5"⟩ : BrowserEntry).source :=
  source_tags_requested_families tagWorld ["Chrome"] none 5
    [⟨"chrome", "https://a.example/", none, 5, none, some "10.0.0.5"⟩]
    ⟨"chrome", "https://a.example/", none, 5, none, some "10.0.0.5"⟩
    (by with_unfolding_all decide) (by with_unfolding_all decide)

end CTN
